import Mathlib

/-!
Verification of the file-integrity-checker engine (`file_integrity.py`).

This file shallowly embeds the program: filesystem trees become association
lists from relative paths to entry descriptions, Python strings become
`List Char`, machine integers become `Nat`/`Int` with explicit masking, and
the `baseline` / `verify` operations become pure Lean functions translated
line by line from the source.  The theorems at the end settle the frozen
claims about the program.
-/

namespace FileIntegrity

/-- Python strings are modelled as lists of characters, so that the
splitting and joining functions of the source can be given faithful
executable models provable by structural induction. -/
abbrev Str := List Char

/-- Convert a Lean string literal to the `Str` model. -/
def str (s : String) : Str := s.data

/-! ## Python primitives: `str.split("  ")`, line reading, `int(...)` -/

/-- Model of Python `s.split("  ")`: split on each non-overlapping
occurrence of two consecutive spaces, scanning left to right, keeping
empty pieces.  Like Python, the result is never the empty list. -/
def split2 : Str → List Str
  | [] => [[]]
  | [c] => [[c]]
  | c1 :: c2 :: rest =>
      if c1 = ' ' ∧ c2 = ' ' then [] :: split2 rest
      else
        let r := split2 (c2 :: rest)
        (c1 :: r.headI) :: r.tail

/-- Split a character stream at each newline, keeping empty pieces
(the analogue of `split2` for the line separator). -/
def splitNl : Str → List Str
  | [] => [[]]
  | c :: rest =>
      if c = '\n' then [] :: splitNl rest
      else
        let r := splitNl rest
        (c :: r.headI) :: r.tail

/-- Model of iterating over an open text file in Python
(`for line in f`) followed by `line.rstrip("\n")` on every line: the
content is split at newlines and the final empty piece produced by a
trailing newline is not yielded. -/
def pyReadLines (s : Str) : List Str :=
  let l := splitNl s
  if l.getLast? = some [] then l.dropLast else l

/-- Model of Python `"\n".rstrip` applied to a single line, as done by
`line.rstrip("\n")` in `verify_integrity`: drop all trailing newlines. -/
def pyRstripNl (s : Str) : Str := (s.reverse.dropWhile (· = '\n')).reverse

/-- Join tokens with the two-space field separator used by the baseline
format (the model of the f-string writes in `generate_baseline`). -/
def joinTokens : List Str → Str
  | [] => []
  | [t] => t
  | t :: ts => t ++ ' ' :: ' ' :: joinTokens ts

/-- ASCII whitespace recognised by Python `int(...)` stripping.  (Python
strips all Unicode whitespace; the baseline format only ever produces
ASCII, so the ASCII fragment is the relevant one.) -/
def isPyWs (c : Char) : Bool :=
  c = ' ' ∨ c = '\t' ∨ c = '\n' ∨ c = '\r' ∨ c = '\x0b' ∨ c = '\x0c'

/-- Numeric value of a decimal digit character (junk for non-digits). -/
def digitVal (c : Char) : Nat := c.toNat - 48

/-- Decimal value of a digit string, most significant digit first. -/
def decValue (cs : Str) : Nat := cs.foldl (fun a c => a * 10 + digitVal c) 0

/-- Adjacent-underscore / trailing-underscore test from the Python
integer literal grammar (an underscore in `int(...)` input must sit
between two digits; a leading underscore is already rejected by the
leading-digit requirement). -/
def hasBadUnderscore : Str → Bool
  | [] => false
  | [c] => c = '_'
  | c1 :: c2 :: rest =>
      ((c1 = '_') && (c2 = '_')) || hasBadUnderscore (c2 :: rest)

/-- Model of the digit-sequence part of Python `int(...)`: a non-empty
string of decimal digits, with single underscores allowed between
digits.  Returns `none` exactly when Python raises `ValueError`. -/
def pyDigits (s : Str) : Option Nat :=
  if s ≠ [] ∧ s.headI.isDigit ∧ (s.getLast?.map Char.isDigit).getD false ∧
      ¬ hasBadUnderscore s ∧ s.all (fun c => c.isDigit || c = '_')
  then some (decValue (s.filter Char.isDigit))
  else none

/-- Strip surrounding whitespace as Python `int(...)` does. -/
def pyStrip (s : Str) : Str :=
  ((s.dropWhile isPyWs).reverse.dropWhile isPyWs).reverse

/-- Model of Python `int(s)` on a decimal string: optional surrounding
whitespace, optional sign, then digits.  `none` models `ValueError`. -/
def pyInt (s : Str) : Option Int :=
  match pyStrip s with
  | [] => none
  | c :: rest =>
      if c = '+' then (pyDigits rest).map (fun n => (n : Int))
      else if c = '-' then (pyDigits rest).map (fun n => -(n : Int))
      else (pyDigits (c :: rest)).map (fun n => (n : Int))

/-- Model of Python `str(n)` for a natural number, by fuelled repeated
division (fuel `n+1` always suffices since `n/10 < n` for `n ≥ 10`). -/
def natToCharsAux : Nat → Nat → Str
  | 0, _ => []
  | fuel + 1, n =>
      if n < 10 then [Char.ofNat (48 + n)]
      else natToCharsAux fuel (n / 10) ++ [Char.ofNat (48 + n % 10)]

/-- Decimal rendering of a natural number, as Python `str(n)`. -/
def natToChars (n : Nat) : Str := natToCharsAux (n + 1) n

/-! ## ChecksumEngine: `crc32_of_file` -/

/-- One shift-xor step of the CRC-32 (IEEE, polynomial `0xEDB88320`)
table computation. -/
def crcStep1 (x : Nat) : Nat :=
  if x % 2 = 1 then (x >>> 1) ^^^ 0xEDB88320 else x >>> 1

/-- Per-byte table entry of the zlib CRC-32: eight shift-xor steps. -/
def crcTable (n : Nat) : Nat :=
  crcStep1 (crcStep1 (crcStep1 (crcStep1 (crcStep1 (crcStep1 (crcStep1 (crcStep1 n)))))))

/-- Fold a single byte into a running CRC-32 accumulator. -/
def crc32UpdateByte (crc b : Nat) : Nat :=
  (crc >>> 8) ^^^ crcTable ((crc ^^^ b) &&& 255)

/-- Model of Python `zlib.crc32(data, value)`: pre- and post-condition
the accumulator with `0xFFFFFFFF` and fold the bytes through the table.
(Checked against the zlib test vectors: `crc32(b"a") = 0xe8b7be43`,
`crc32(b"abc") = 0x352441c2`.) -/
def zlibCrc32 (data : List Nat) (v : Nat) : Nat :=
  (data.foldl crc32UpdateByte (v ^^^ 0xFFFFFFFF)) ^^^ 0xFFFFFFFF

/-- The fixed-size read loop of `crc32_of_file`: cut the remaining
content into chunks of `sz` bytes until nothing is left.  Fuelled by the
content length, which suffices whenever `sz ≥ 1`. -/
def chunksAux (sz : Nat) : Nat → List Nat → List (List Nat)
  | 0, _ => []
  | _ + 1, [] => []
  | fuel + 1, c :: t => (c :: t).take sz :: chunksAux sz fuel ((c :: t).drop sz)

/-- The chunks successively returned by `f.read(sz)` on a file whose
byte content is `content`. -/
def pyChunks (sz : Nat) (content : List Nat) : List (List Nat) :=
  chunksAux sz content.length content

/-- Hex digit characters as produced by Python `"%x"` (lowercase). -/
def hexDigitCh (n : Nat) : Char :=
  if n < 10 then Char.ofNat (48 + n) else Char.ofNat (87 + n)

/-- Model of Python `f"{crc:08x}"` for a 32-bit value: eight zero-padded
lowercase hexadecimal digits, most significant nibble first. -/
def hex8 (n : Nat) : Str :=
  [hexDigitCh ((n >>> 28) &&& 15), hexDigitCh ((n >>> 24) &&& 15),
   hexDigitCh ((n >>> 20) &&& 15), hexDigitCh ((n >>> 16) &&& 15),
   hexDigitCh ((n >>> 12) &&& 15), hexDigitCh ((n >>> 8) &&& 15),
   hexDigitCh ((n >>> 4) &&& 15), hexDigitCh (n &&& 15)]

/-- The running accumulator computed by the read loop of
`crc32_of_file`: 1 MiB chunks folded through `zlib.crc32`, starting at
0, masked to 32 bits at the end exactly as the source does. -/
def crc32Accum (content : List Nat) : Nat :=
  ((pyChunks (1 <<< 20) content).foldl (fun crc data => zlibCrc32 data crc) 0) &&& 0xFFFFFFFF

/-- Model of `crc32_of_file`: the masked accumulator rendered by
`f"{crc:08x}"`. -/
def crc32_of_file (content : List Nat) : Str := hex8 (crc32Accum content)

/-! ## Data model: filesystem trees -/

/-- One filesystem entry under the scanned root.  `file` and `dir` are
regular files and directories; `symlinkFile` / `symlinkDir` are symbolic
links whose resolved target is a regular file / a directory (pathlib's
`is_file()` and `is_dir()` follow symlinks, so such links carry the stat
data of their target); `brokenSymlink` is a link whose resolution fails;
`special` is any other kind (fifo, device, socket).  The `readable`
flag on files models whether `stat`+`open`+`read` succeed, the `statOk`
flag on directories whether `stat` succeeds. -/
inductive Entry where
  | file (content : List Nat) (uid gid : Nat) (mode : Str) (readable : Bool)
  | dir (uid gid : Nat) (mode : Str) (statOk : Bool)
  | symlinkFile (content : List Nat) (uid gid : Nat) (mode : Str) (readable : Bool)
  | symlinkDir (uid gid : Nat) (mode : Str) (statOk : Bool)
  | brokenSymlink
  | special
deriving DecidableEq

/-- A tree rooted at the scanned path: the entries reachable under the
root, keyed by their `relative_to(base).as_posix()` path.  Real
filesystems give every entry a unique path; the claims that need this
state it as a hypothesis. -/
abbrev Tree := List (Str × Entry)

/-- Python `Path.is_file()`: true for a regular file or a symlink whose
target is a regular file (symlinks are followed). -/
def entryIsFile : Entry → Bool
  | .file _ _ _ _ _ => true
  | .symlinkFile _ _ _ _ _ => true
  | _ => false

/-- Python `Path.is_dir()`: true for a directory or a symlink whose
target is a directory (symlinks are followed). -/
def entryIsDir : Entry → Bool
  | .dir _ _ _ _ => true
  | .symlinkDir _ _ _ _ => true
  | _ => false

/-- First entry stored at a path (the filesystem resolution of the
path; unique when the tree's paths are distinct). -/
def lookupEntry : Tree → Str → Option Entry
  | [], _ => none
  | (p, e) :: t, q => if p = q then some e else lookupEntry t q

/-- Python `set.add` on a list model of a set: keep the list
deduplicated, first occurrence first. -/
def insertOnce (l : List Str) (x : Str) : List Str :=
  if x ∈ l then l else l ++ [x]

/-- Collapse a path list to set semantics (model of `set(...)`). -/
def listToSet (l : List Str) : List Str := l.foldl insertOnce []

/-- Model of `get_all_files`: the union of the two `rglob` passes,
deduplicated by `set`, restricted by `p.is_file()`.  Both passes see the
same entries (pathlib's `*` pattern also matches dotted names), so the
union is the set of paths whose entry satisfies `is_file`. -/
def get_all_files (tree : Tree) : List Str :=
  listToSet ((tree.filter (fun e => entryIsFile e.2)).map (fun e => e.1))

/-- Model of `get_all_dirs`, analogous to `get_all_files`. -/
def get_all_dirs (tree : Tree) : List Str :=
  listToSet ((tree.filter (fun e => entryIsDir e.2)).map (fun e => e.1))

/-- Successful result of processing one file: `stat` data plus the
content checksum. -/
structure PResult where
  hash : Str
  size : Nat
  uid : Nat
  gid : Nat
  mode : Str
deriving DecidableEq

/-- Model of `process_file_linux` (and of `process_file_windows`, which
runs the same `stat` + `crc32_of_file` calls and merely records fewer
fields — the windows comparison branch never reads `uid`/`gid`/`mode`).
`none` models the broad `except` branch returning an error result:
the path is gone, is not readable, or `open` fails because the entry is
a directory or another non-regular kind. -/
def process_file (tree : Tree) (rel : Str) : Option PResult :=
  match lookupEntry tree rel with
  | some (.file content uid gid mode true) =>
      some ⟨crc32_of_file content, content.length, uid, gid, mode⟩
  | some (.symlinkFile content uid gid mode true) =>
      some ⟨crc32_of_file content, content.length, uid, gid, mode⟩
  | _ => none

/-- Directory stat data at a path, `none` when `stat` raises (used by
both the baseline writer and the verify metadata probe). -/
def dirStat (tree : Tree) (rel : Str) : Option (Nat × Nat × Str) :=
  match lookupEntry tree rel with
  | some (.dir uid gid mode true) => some (uid, gid, mode)
  | some (.symlinkDir uid gid mode true) => some (uid, gid, mode)
  | _ => none

/-! ## BaselineCodec: serialization (`generate_baseline`) -/

/-- Default baseline file name (`HASH_LOG_NAME` in the source). -/
def HASH_LOG_NAME : Str := str ".integrity_hash.log"

/-- A serialized directory record:
`f"DIR  {rel}  {uid}  {gid}  {mode}"`. -/
def dirLine (rel : Str) (uid gid : Nat) (mode : Str) : Str :=
  joinTokens [str "DIR", rel, natToChars uid, natToChars gid, mode]

/-- A serialized windows-profile file record:
`f"FILE  {hash}  {rel}  {size}"`. -/
def fileLineW (hash rel : Str) (size : Nat) : Str :=
  joinTokens [str "FILE", hash, rel, natToChars size]

/-- A serialized linux-profile file record:
`f"FILE  {hash}  {rel}  {size}  {uid}  {gid}  {mode}"`. -/
def fileLineL (hash rel : Str) (size uid gid : Nat) (mode : Str) : Str :=
  joinTokens [str "FILE", hash, rel, natToChars size, natToChars uid, natToChars gid, mode]

/-- Model of `generate_baseline`: the text written to the log file.
Directory records are written first, one per stat-able directory path;
then one file record per processable file path (entries whose stat or
read raises are reported and skipped, producing no record).  The worker
pool completes file tasks in arbitrary order; the log's meaning is
order-insensitive, and the model fixes enumeration order. -/
def generate_baseline (is_windows : Bool) (tree : Tree) : Str :=
  let dLines := (get_all_dirs tree).filterMap fun rel =>
    (dirStat tree rel).map fun m => dirLine rel m.1 m.2.1 m.2.2
  let fLines := (get_all_files tree).filterMap fun rel =>
    (process_file tree rel).map fun r =>
      if is_windows then fileLineW r.hash rel r.size
      else fileLineL r.hash rel r.size r.uid r.gid r.mode
  ((dLines ++ fLines).map (· ++ ['\n'])).flatten

/-! ## BaselineCodec: parsing (the read loop of `verify_integrity`) -/

/-- A parsed baseline `FILE` record (one element of `to_check_files`).
For windows-profile records the source dict simply has no
`expected_uid`/`expected_gid`/`expected_mode` keys and never reads
them; the model stores zeros/empty there. -/
structure BFile where
  hash : Str
  rel : Str
  size : Int
  uid : Int
  gid : Int
  mode : Str
deriving DecidableEq

/-- Python dict assignment `baseline_files[rel] = v`: overwrite in
place when the key exists, append otherwise. -/
def dictInsert (d : List (Str × BFile)) (k : Str) (v : BFile) : List (Str × BFile) :=
  if k ∈ d.map (fun p => p.1) then d.map (fun p => if p.1 = k then (k, v) else p)
  else d ++ [(k, v)]

/-- State accumulated by the baseline-reading loop of
`verify_integrity`: the `baseline_dirs` set, the `baseline_files` dict,
the `to_check_files` list, and the lines skipped with a diagnostic. -/
structure Parsed where
  bDirs : List Str
  bFiles : List (Str × BFile)
  toCheck : List BFile
  skipped : List Str
deriving DecidableEq

/-- The empty parse state. -/
def initParsed : Parsed := ⟨[], [], [], []⟩

/-- The record parsed back from a serialized file line of a processed
file (used to state the round-trip lemmas). -/
def mkBFile (is_windows : Bool) (r : PResult) (rel : Str) : BFile :=
  if is_windows then ⟨r.hash, rel, (r.size : Int), 0, 0, []⟩
  else ⟨r.hash, rel, (r.size : Int), (r.uid : Int), (r.gid : Int), r.mode⟩

/-- Model of one iteration of the baseline-reading loop: tokenize by
`"  "`, branch on the leading token, check the field count for the
profile, and convert the numeric fields with `int(...)`.  `none` models
the uncaught `ValueError` that `int(...)` raises on a non-integer
field; a wrong field count or an unknown record type only skips the
line. -/
def parseLine (is_windows : Bool) (acc : Parsed) (line : Str) : Option Parsed :=
  let tokens := split2 (pyRstripNl line)
  if tokens.headI = str "DIR" then
    if tokens.length ≠ 5 then some { acc with skipped := acc.skipped ++ [line] }
    else some { acc with bDirs := insertOnce acc.bDirs (tokens.getD 1 []) }
  else if tokens.headI = str "FILE" then
    if is_windows then
      if tokens.length ≠ 4 then some { acc with skipped := acc.skipped ++ [line] }
      else
        match pyInt (tokens.getD 3 []) with
        | none => none
        | some size =>
            let rec0 : BFile := ⟨tokens.getD 1 [], tokens.getD 2 [], size, 0, 0, []⟩
            some { acc with
              bFiles := dictInsert acc.bFiles (tokens.getD 2 []) rec0,
              toCheck := acc.toCheck ++ [rec0] }
    else
      if tokens.length ≠ 7 then some { acc with skipped := acc.skipped ++ [line] }
      else
        match pyInt (tokens.getD 3 []), pyInt (tokens.getD 4 []), pyInt (tokens.getD 5 []) with
        | some size, some uid, some gid =>
            let rec0 : BFile :=
              ⟨tokens.getD 1 [], tokens.getD 2 [], size, uid, gid, tokens.getD 6 []⟩
            some { acc with
              bFiles := dictInsert acc.bFiles (tokens.getD 2 []) rec0,
              toCheck := acc.toCheck ++ [rec0] }
        | _, _, _ => none
  else some { acc with skipped := acc.skipped ++ [line] }

/-- Run the baseline-reading loop over a list of lines; `none` models
an uncaught exception aborting `verify_integrity`. -/
def parseAll (is_windows : Bool) : List Str → Parsed → Option Parsed
  | [], acc => some acc
  | l :: ls, acc =>
      match parseLine is_windows acc l with
      | none => none
      | some acc' => parseAll is_windows ls acc'

/-! ## ReconciliationEngine: `verify_integrity` -/

/-- The categorized report accumulated by `verify_integrity`.  Each
category is the list of offending relative paths, in processing order
(for `dir_meta_mismatch` the source stores `(rel, message)` pairs; the
model keeps the paths). -/
structure Report where
  dirMissing : List Str
  dirExtra : List Str
  dirMetaErr : List Str
  fileMissing : List Str
  fileExtra : List Str
  fileError : List Str
  fileHash : List Str
  fileSize : List Str
  fileUid : List Str
  fileGid : List Str
  fileMode : List Str
  fileIdmap : List Str
  fileRoot : List Str
deriving DecidableEq

/-- Model of `verify_integrity` after its startup preconditions: parse
the baseline (`none` models the uncaught `ValueError` of a non-integer
numeric field), enumerate the current tree, recompute every baseline
file record, and classify.  The worker pool completes file tasks in
arbitrary order; every category's content is order-insensitive
membership-wise, and the model fixes submission order. -/
def verify_integrity (is_windows check_idmap check_root : Bool)
    (tree : Tree) (log : Str) : Option Report :=
  match parseAll is_windows (pyReadLines log) initParsed with
  | none => none
  | some p =>
      let currentDirs := get_all_dirs tree
      let currentFiles := get_all_files tree
      let bFileKeys := p.bFiles.map (fun e => e.1)
      some {
        dirMissing := p.bDirs.filter (fun rel => !(currentDirs.contains rel))
        dirMetaErr := p.bDirs.filter (fun rel =>
          currentDirs.contains rel && !is_windows && (dirStat tree rel).isNone)
        dirExtra := currentDirs.filter (fun rel => !(p.bDirs.contains rel))
        fileError := p.toCheck.filterMap (fun e =>
          if (process_file tree e.rel).isNone then some e.rel else none)
        fileHash := p.toCheck.filterMap (fun e =>
          (process_file tree e.rel).bind fun r =>
            if r.hash ≠ e.hash then some e.rel else none)
        fileSize := p.toCheck.filterMap (fun e =>
          (process_file tree e.rel).bind fun r =>
            if (r.size : Int) ≠ e.size then some e.rel else none)
        fileUid := if is_windows then [] else p.toCheck.filterMap (fun e =>
          (process_file tree e.rel).bind fun r =>
            if (r.uid : Int) ≠ e.uid then some e.rel else none)
        fileGid := if is_windows then [] else p.toCheck.filterMap (fun e =>
          (process_file tree e.rel).bind fun r =>
            if (r.gid : Int) ≠ e.gid then some e.rel else none)
        fileMode := if is_windows then [] else p.toCheck.filterMap (fun e =>
          (process_file tree e.rel).bind fun r =>
            if r.mode ≠ e.mode then some e.rel else none)
        fileIdmap := if is_windows then [] else p.toCheck.filterMap (fun e =>
          (process_file tree e.rel).bind fun r =>
            if check_idmap && (r.uid = 65534 || r.gid = 65534) then some e.rel else none)
        fileRoot := if is_windows then [] else p.toCheck.filterMap (fun e =>
          (process_file tree e.rel).bind fun r =>
            if check_root && (r.uid = 0 || r.gid = 0) then some e.rel else none)
        fileMissing := bFileKeys.filter (fun rel => !(currentFiles.contains rel))
        fileExtra := currentFiles.filter (fun rel => !(bFileKeys.contains rel))
      }

/-! ## Well-formedness predicates used by the claims -/

/-- Two adjacent spaces occur somewhere in the string. -/
def hasDoubleSp : Str → Bool
  | [] => false
  | [_] => false
  | c1 :: c2 :: rest => (c1 = ' ' && c2 = ' ') || hasDoubleSp (c2 :: rest)

/-- A string that survives the two-space tokenization as a non-final
field: no two adjacent spaces, no newline, no trailing space. -/
def goodPathB (s : Str) : Bool :=
  !hasDoubleSp s && !s.contains '\n' && s.getLast? != some ' '

/-- A string that survives the tokenization as a final field: no two
adjacent spaces and no newline (`stat.filemode` output always
qualifies: ten characters from a fixed spaceless alphabet). -/
def goodModeB (m : Str) : Bool := !hasDoubleSp m && !m.contains '\n'

/-- An entry on which baseline and verify runs never hit a per-entry
fault and whose serialized fields tokenize back: files readable,
directories stat-able, mode strings well-formed.  Broken symlinks and
special files are excluded from both enumerations, so they need no
condition. -/
def entryOk : Entry → Bool
  | .file _ _ _ mode readable => goodModeB mode && readable
  | .dir _ _ mode statOk => goodModeB mode && statOk
  | .symlinkFile _ _ _ mode readable => goodModeB mode && readable
  | .symlinkDir _ _ mode statOk => goodModeB mode && statOk
  | .brokenSymlink => true
  | .special => true

/-- A tree as a real filesystem presents it (distinct paths) whose
paths and modes are representable in the baseline format and whose
entries raise no per-entry I/O fault. -/
def goodTree (t : Tree) : Prop :=
  (t.map (fun e => e.1)).Nodup ∧ ∀ e ∈ t, goodPathB e.1 = true ∧ entryOk e.2 = true

/-- A line the baseline reader accepts for the given profile: a `DIR`
line with five fields, or a `FILE` line with the profile's field count
whose numeric fields all parse with `int(...)`. -/
def lineValid (is_windows : Bool) (l : Str) : Bool :=
  let tokens := split2 (pyRstripNl l)
  (tokens.headI == str "DIR" && tokens.length == 5) ||
  (tokens.headI == str "FILE" &&
    (if is_windows then tokens.length == 4 && (pyInt (tokens.getD 3 [])).isSome
     else tokens.length == 7 && (pyInt (tokens.getD 3 [])).isSome &&
          (pyInt (tokens.getD 4 [])).isSome && (pyInt (tokens.getD 5 [])).isSome))

/-- A line the baseline reader skips with a diagnostic: wrong field
count for its declared record type and profile, or an unrecognized
leading token. -/
def lineInvalidKind (is_windows : Bool) (l : Str) : Bool :=
  let tokens := split2 (pyRstripNl l)
  (tokens.headI == str "DIR" && tokens.length != 5) ||
  (tokens.headI == str "FILE" && tokens.length != (if is_windows then 4 else 7)) ||
  (tokens.headI != str "DIR" && tokens.headI != str "FILE")

/-- Numeric value of a lowercase hexadecimal digit character. -/
def hexCharVal (c : Char) : Nat :=
  if c.isDigit then c.toNat - 48 else c.toNat - 87

/-- Value denoted by a hexadecimal digit string, most significant
nibble first. -/
def hexVal (cs : Str) : Nat := cs.foldl (fun a c => a * 16 + hexCharVal c) 0

/-- Lowercase hexadecimal digit characters. -/
def isHexLower (c : Char) : Bool := c.isDigit || ('a' ≤ c && c ≤ 'f')

/-! ## Tokenizer lemmas -/

theorem split2_ne_nil : ∀ s : Str, split2 s ≠ []
  | [] => by simp [split2]
  | [c] => by simp [split2]
  | c1 :: c2 :: rest => by
      simp only [split2]
      split <;> simp

theorem split2_sep : ∀ t rest : Str, hasDoubleSp t = false → t.getLast? ≠ some ' ' →
    split2 (t ++ ' ' :: ' ' :: rest) = t :: split2 rest
  | [], rest, _, _ => by simp [split2]
  | [c], rest, _, h2 => by
      have hc : ¬ (c = ' ') := by simpa using h2
      simp [split2, hc]
  | c1 :: c2 :: t, rest, h1, h2 => by
      have h1a : ¬ (c1 = ' ' ∧ c2 = ' ') := by
        intro hand
        simp [hasDoubleSp, hand.1, hand.2] at h1
      have h1b : hasDoubleSp (c2 :: t) = false := by
        cases hh : hasDoubleSp (c2 :: t) with
        | false => rfl
        | true => simp [hasDoubleSp, hh] at h1
      have h2b : (c2 :: t).getLast? ≠ some ' ' := by
        rwa [List.getLast?_cons_cons] at h2
      have ih := split2_sep (c2 :: t) rest h1b h2b
      simp only [List.cons_append] at ih ⊢
      rw [split2]
      simp only [h1a, if_false]
      rw [ih]
      simp

theorem split2_single : ∀ t : Str, hasDoubleSp t = false → split2 t = [t]
  | [], _ => by simp [split2]
  | [c], _ => by simp [split2]
  | c1 :: c2 :: t, h1 => by
      have h1a : ¬ (c1 = ' ' ∧ c2 = ' ') := by
        intro hand
        simp [hasDoubleSp, hand.1, hand.2] at h1
      have h1b : hasDoubleSp (c2 :: t) = false := by
        cases hh : hasDoubleSp (c2 :: t) with
        | false => rfl
        | true => simp [hasDoubleSp, hh] at h1
      have ih := split2_single (c2 :: t) h1b
      rw [split2]
      simp only [h1a, if_false]
      rw [ih]
      simp

theorem joinTokens_cons_cons (t1 t2 : Str) (ts : List Str) :
    joinTokens (t1 :: t2 :: ts) = t1 ++ ' ' :: ' ' :: joinTokens (t2 :: ts) := rfl

theorem split2_joinTokens : ∀ ts : List Str, ts ≠ [] →
    (∀ t ∈ ts, hasDoubleSp t = false) →
    (∀ t ∈ ts.dropLast, t.getLast? ≠ some ' ') →
    split2 (joinTokens ts) = ts
  | [], h, _, _ => absurd rfl h
  | [t], _, h1, _ => by
      rw [joinTokens, split2_single t (h1 t (by simp))]
  | t1 :: t2 :: ts, _, h1, h2 => by
      have ih := split2_joinTokens (t2 :: ts) (List.cons_ne_nil _ _)
        (fun t ht => h1 t (List.mem_cons_of_mem _ ht))
        (fun t ht => h2 t (by rw [List.dropLast_cons₂]; exact List.mem_cons_of_mem _ ht))
      rw [joinTokens_cons_cons, split2_sep t1 _ (h1 t1 (by simp))
        (h2 t1 (by rw [List.dropLast_cons₂]; exact List.mem_cons_self _ _)), ih]

theorem splitNl_cons_line : ∀ l rest : Str, '\n' ∉ l →
    splitNl (l ++ '\n' :: rest) = l :: splitNl rest
  | [], rest, _ => by simp [splitNl]
  | c :: l, rest, h => by
      have hc : ¬ (c = '\n') := fun hh => h (hh ▸ List.mem_cons_self c l)
      have ih := splitNl_cons_line l rest (fun hh => h (List.mem_cons_of_mem c hh))
      rw [List.cons_append, splitNl]
      simp only [hc, if_false]
      rw [ih]
      simp

theorem splitNl_flatten : ∀ lines : List Str, (∀ l ∈ lines, '\n' ∉ l) →
    splitNl ((lines.map (· ++ ['\n'])).flatten) = lines ++ [[]]
  | [], _ => by simp [splitNl]
  | l :: lines, h => by
      have ih := splitNl_flatten lines (fun x hx => h x (List.mem_cons_of_mem l hx))
      simp only [List.map_cons, List.flatten_cons, List.append_assoc, List.singleton_append]
      rw [splitNl_cons_line l _ (h l (List.mem_cons_self l lines)), ih]
      simp

theorem pyReadLines_flatten (lines : List Str) (h : ∀ l ∈ lines, '\n' ∉ l) :
    pyReadLines ((lines.map (· ++ ['\n'])).flatten) = lines := by
  rw [pyReadLines, splitNl_flatten lines h]
  simp [List.getLast?_concat, List.dropLast_concat]

/-! ## Character and number rendering lemmas -/

theorem digitCh_spec : ∀ k, k < 10 → ((Char.ofNat (48 + k)).isDigit = true ∧
    Char.ofNat (48 + k) ≠ ' ' ∧ Char.ofNat (48 + k) ≠ '\n' ∧
    Char.ofNat (48 + k) ≠ '_' ∧ Char.ofNat (48 + k) ≠ '+' ∧
    Char.ofNat (48 + k) ≠ '-' ∧ isPyWs (Char.ofNat (48 + k)) = false ∧
    digitVal (Char.ofNat (48 + k)) = k) := by decide

theorem natToCharsAux_spec : ∀ fuel n, n < fuel →
    natToCharsAux fuel n ≠ [] ∧ decValue (natToCharsAux fuel n) = n ∧
    ∀ c ∈ natToCharsAux fuel n, ∃ k, k < 10 ∧ c = Char.ofNat (48 + k)
  | 0, n, h => absurd h (Nat.not_lt_zero n)
  | fuel + 1, n, h => by
      rw [natToCharsAux]
      by_cases hn : n < 10
      · simp only [hn, if_true]
        refine ⟨by simp, ?_, ?_⟩
        · simp [decValue, (digitCh_spec n hn).2.2.2.2.2.2.2]
        · intro c hc
          simp only [List.mem_singleton] at hc
          exact ⟨n, hn, hc⟩
      · simp only [hn, if_false]
        have hdiv : n / 10 < fuel :=
          lt_of_lt_of_le (Nat.div_lt_self (by omega) (by omega)) (by omega)
        obtain ⟨hne, hval, hmem⟩ := natToCharsAux_spec fuel (n / 10) hdiv
        refine ⟨by simp, ?_, ?_⟩
        · show (natToCharsAux fuel (n / 10) ++ [Char.ofNat (48 + n % 10)]).foldl
            (fun a c => a * 10 + digitVal c) 0 = n
          rw [List.foldl_append]
          have hd := (digitCh_spec (n % 10) (Nat.mod_lt n (by omega))).2.2.2.2.2.2.2
          show decValue (natToCharsAux fuel (n / 10)) * 10 + digitVal (Char.ofNat (48 + n % 10)) = n
          rw [hval, hd]
          omega
        · intro c hc
          rcases List.mem_append.mp hc with hc1 | hc1
          · exact hmem c hc1
          · simp only [List.mem_singleton] at hc1
            exact ⟨n % 10, Nat.mod_lt n (by omega), hc1⟩

theorem natToChars_spec (n : Nat) : natToChars n ≠ [] ∧ decValue (natToChars n) = n ∧
    ∀ c ∈ natToChars n, ∃ k, k < 10 ∧ c = Char.ofNat (48 + k) :=
  natToCharsAux_spec (n + 1) n (Nat.lt_succ_self n)

theorem natToChars_char_facts (n : Nat) : ∀ c ∈ natToChars n,
    c.isDigit = true ∧ c ≠ ' ' ∧ c ≠ '\n' ∧ c ≠ '_' ∧ c ≠ '+' ∧ c ≠ '-' ∧
    isPyWs c = false := by
  intro c hc
  obtain ⟨k, hk, rfl⟩ := (natToChars_spec n).2.2 c hc
  have := digitCh_spec k hk
  exact ⟨this.1, this.2.1, this.2.2.1, this.2.2.2.1, this.2.2.2.2.1,
    this.2.2.2.2.2.1, this.2.2.2.2.2.2.1⟩

theorem hasDoubleSp_of_no_space : ∀ s : Str, (∀ c ∈ s, c ≠ ' ') → hasDoubleSp s = false
  | [], _ => rfl
  | [c], _ => rfl
  | c1 :: c2 :: t, h => by
      rw [hasDoubleSp]
      have h1 : ¬ (c1 = ' ') := h c1 (List.mem_cons_self _ _)
      have ih := hasDoubleSp_of_no_space (c2 :: t) (fun c hc => h c (List.mem_cons_of_mem _ hc))
      simp [h1, ih]

theorem hasBadUnderscore_of_no_underscore : ∀ s : Str, (∀ c ∈ s, c ≠ '_') →
    hasBadUnderscore s = false
  | [], _ => rfl
  | [c], h => by
      have h1 : ¬ (c = '_') := h c (List.mem_cons_self _ _)
      simp [hasBadUnderscore, h1]
  | c1 :: c2 :: t, h => by
      rw [hasBadUnderscore]
      have h1 : ¬ (c1 = '_') := h c1 (List.mem_cons_self _ _)
      have ih := hasBadUnderscore_of_no_underscore (c2 :: t)
        (fun c hc => h c (List.mem_cons_of_mem _ hc))
      simp [h1, ih]

theorem contains_eq_false_of_not_mem {s : Str} {a : Char} (h : a ∉ s) :
    s.contains a = false := by
  simpa using h

theorem goodPathB_of_chars (s : Str) (h : ∀ c ∈ s, c ≠ ' ' ∧ c ≠ '\n') :
    goodPathB s = true := by
  rw [goodPathB]
  have h1 : hasDoubleSp s = false := hasDoubleSp_of_no_space s (fun c hc => (h c hc).1)
  have h2 : s.contains '\n' = false :=
    contains_eq_false_of_not_mem (fun hm => (h _ hm).2 rfl)
  have h3 : (s.getLast? != some ' ') = true := by
    cases hg : s.getLast? with
    | none => rfl
    | some c =>
        have hcm : c ∈ s := List.mem_of_mem_getLast? hg
        simpa using (h c hcm).1
  rw [h1, h2, h3]
  rfl

theorem goodModeB_of_chars (s : Str) (h : ∀ c ∈ s, c ≠ ' ' ∧ c ≠ '\n') :
    goodModeB s = true := by
  rw [goodModeB]
  have h1 : hasDoubleSp s = false := hasDoubleSp_of_no_space s (fun c hc => (h c hc).1)
  have h2 : s.contains '\n' = false :=
    contains_eq_false_of_not_mem (fun hm => (h _ hm).2 rfl)
  rw [h1, h2]
  rfl

theorem goodPathB_natToChars (n : Nat) : goodPathB (natToChars n) = true :=
  goodPathB_of_chars _ (fun c hc =>
    ⟨(natToChars_char_facts n c hc).2.1, (natToChars_char_facts n c hc).2.2.1⟩)

theorem dropWhile_eq_self_of_all (p : Char → Bool) :
    ∀ s : Str, (∀ c ∈ s, p c = false) → s.dropWhile p = s
  | [], _ => rfl
  | c :: t, h => by
      have h1 : p c = false := h c (List.mem_cons_self _ _)
      simp [List.dropWhile_cons, h1]

theorem pyStrip_eq_self_of_all (s : Str) (h : ∀ c ∈ s, isPyWs c = false) :
    pyStrip s = s := by
  rw [pyStrip, dropWhile_eq_self_of_all _ s h,
    dropWhile_eq_self_of_all _ s.reverse (fun c hc => h c (List.mem_reverse.mp hc)),
    List.reverse_reverse]

theorem pyDigits_natToChars (n : Nat) : pyDigits (natToChars n) = some n := by
  obtain ⟨hne, hval, _⟩ := natToChars_spec n
  have hfacts := natToChars_char_facts n
  have hall : (natToChars n).all (fun c => c.isDigit || c = '_') = true := by
    rw [List.all_eq_true]
    intro c hc
    simp [(hfacts c hc).1]
  have hhead : (natToChars n).headI.isDigit = true := by
    obtain ⟨c, cs, hc⟩ := List.exists_cons_of_ne_nil hne
    rw [hc]
    exact (hfacts c (hc ▸ List.mem_cons_self _ _)).1
  have hlast : ((natToChars n).getLast?.map Char.isDigit).getD false = true := by
    cases hg : (natToChars n).getLast? with
    | none => exact absurd (List.getLast?_eq_none_iff.mp hg) hne
    | some c => simp [(hfacts c (List.mem_of_mem_getLast? hg)).1]
  have hbad : hasBadUnderscore (natToChars n) = false :=
    hasBadUnderscore_of_no_underscore _ (fun c hc => (hfacts c hc).2.2.2.1)
  rw [pyDigits, if_pos ⟨hne, hhead, hlast, by simp [hbad], hall⟩,
    List.filter_eq_self.mpr (fun c hc => by simp [(hfacts c hc).1]), hval]

theorem pyInt_natToChars (n : Nat) : pyInt (natToChars n) = some (n : Int) := by
  have hfacts := natToChars_char_facts n
  have hstrip : pyStrip (natToChars n) = natToChars n :=
    pyStrip_eq_self_of_all _ (fun c hc => (hfacts c hc).2.2.2.2.2.2)
  obtain ⟨c, cs, hc⟩ := List.exists_cons_of_ne_nil (natToChars_spec n).1
  have hcp : ¬ (c = '+') := (hfacts c (hc ▸ List.mem_cons_self _ _)).2.2.2.2.1
  have hcm : ¬ (c = '-') := (hfacts c (hc ▸ List.mem_cons_self _ _)).2.2.2.2.2.1
  rw [pyInt]
  rw [hstrip, hc]
  simp only [hcp, if_false, hcm]
  rw [← hc, pyDigits_natToChars]
  rfl

/-! ## Checksum lemmas -/

theorem xor_cancel_right (a m : Nat) : (a ^^^ m) ^^^ m = a := by
  rw [Nat.xor_assoc, Nat.xor_self, Nat.xor_zero]

theorem zlibCrc32_append (a b : List Nat) (v : Nat) :
    zlibCrc32 (a ++ b) v = zlibCrc32 b (zlibCrc32 a v) := by
  unfold zlibCrc32
  rw [xor_cancel_right, List.foldl_append]

theorem foldl_zlibCrc32_flatten : ∀ (chunks : List (List Nat)) (v : Nat),
    chunks.foldl (fun crc data => zlibCrc32 data crc) v = zlibCrc32 chunks.flatten v
  | [], v => by
      show v = zlibCrc32 [] v
      rw [zlibCrc32]
      show v = (v ^^^ 0xFFFFFFFF) ^^^ 0xFFFFFFFF
      rw [xor_cancel_right]
  | c :: cs, v => by
      rw [List.foldl_cons, foldl_zlibCrc32_flatten cs (zlibCrc32 c v),
        List.flatten_cons, zlibCrc32_append]

theorem chunksAux_flatten : ∀ (fuel : Nat) (sz : Nat) (content : List Nat), 1 ≤ sz →
    content.length ≤ fuel → (chunksAux sz fuel content).flatten = content
  | 0, sz, content, _, hf => by
      have : content = [] := List.eq_nil_of_length_eq_zero (Nat.le_zero.mp hf)
      simp [this, chunksAux]
  | fuel + 1, sz, [], _, _ => rfl
  | fuel + 1, sz, c :: t, hsz, hf => by
      have hlen : ((c :: t).drop sz).length ≤ fuel := by
        rw [List.length_drop, List.length_cons]
        rw [List.length_cons] at hf
        omega
      show ((c :: t).take sz :: chunksAux sz fuel ((c :: t).drop sz)).flatten = c :: t
      rw [List.flatten_cons, chunksAux_flatten fuel sz _ hsz hlen, List.take_append_drop]

theorem pyChunks_flatten (sz : Nat) (content : List Nat) (h : 1 ≤ sz) :
    (pyChunks sz content).flatten = content :=
  chunksAux_flatten content.length sz content h (le_refl _)

theorem crc32Accum_eq (content : List Nat) :
    crc32Accum content = zlibCrc32 content 0 &&& 0xFFFFFFFF := by
  rw [crc32Accum, foldl_zlibCrc32_flatten, pyChunks_flatten _ _ (by decide)]

/-! ## Hexadecimal rendering lemmas -/

theorem hexDigitCh_spec : ∀ k, k < 16 → (isHexLower (hexDigitCh k) = true ∧
    hexDigitCh k ≠ ' ' ∧ hexDigitCh k ≠ '\n' ∧
    hexCharVal (hexDigitCh k) = k) := by decide

theorem hex8_length (n : Nat) : (hex8 n).length = 8 := rfl

theorem hex8_chars (n : Nat) : ∀ c ∈ hex8 n,
    isHexLower c = true ∧ c ≠ ' ' ∧ c ≠ '\n' := by
  intro c hc
  have hlt : ∀ m : Nat, m &&& 15 < 16 := fun m => lt_of_le_of_lt Nat.and_le_right (by norm_num)
  rw [hex8] at hc
  simp only [List.mem_cons, List.mem_singleton, List.not_mem_nil, or_false] at hc
  rcases hc with rfl | rfl | rfl | rfl | rfl | rfl | rfl | rfl <;>
    exact ⟨(hexDigitCh_spec _ (hlt _)).1, (hexDigitCh_spec _ (hlt _)).2.1,
      (hexDigitCh_spec _ (hlt _)).2.2.1⟩

theorem goodPathB_hex8 (n : Nat) : goodPathB (hex8 n) = true :=
  goodPathB_of_chars _ (fun c hc => ⟨(hex8_chars n c hc).2.1, (hex8_chars n c hc).2.2⟩)

theorem hexVal_hex8 (n : Nat) (h : n < 4294967296) : hexVal (hex8 n) = n := by
  have hlt : ∀ m : Nat, m &&& 15 < 16 := fun m => lt_of_le_of_lt Nat.and_le_right (by norm_num)
  have hmod : ∀ m : Nat, m &&& 15 = m % 16 := fun m => by
    simpa using Nat.and_pow_two_sub_one_eq_mod m 4
  have hv : ∀ m : Nat, hexCharVal (hexDigitCh (m &&& 15)) = m &&& 15 :=
    fun m => (hexDigitCh_spec _ (hlt m)).2.2.2
  have e0 : hexVal (hex8 n) =
    ((((((((0 * 16 + hexCharVal (hexDigitCh (n >>> 28 &&& 15))) * 16 +
      hexCharVal (hexDigitCh (n >>> 24 &&& 15))) * 16 +
      hexCharVal (hexDigitCh (n >>> 20 &&& 15))) * 16 +
      hexCharVal (hexDigitCh (n >>> 16 &&& 15))) * 16 +
      hexCharVal (hexDigitCh (n >>> 12 &&& 15))) * 16 +
      hexCharVal (hexDigitCh (n >>> 8 &&& 15))) * 16 +
      hexCharVal (hexDigitCh (n >>> 4 &&& 15))) * 16 +
      hexCharVal (hexDigitCh (n &&& 15))) := rfl
  rw [e0]
  simp only [hv]
  simp only [hmod, Nat.shiftRight_eq_div_pow]
  norm_num
  omega

/-! ## Set, dictionary and lookup lemmas -/

theorem mem_insertOnce {l : List Str} {x y : Str} : y ∈ insertOnce l x ↔ y ∈ l ∨ y = x := by
  rw [insertOnce]
  split
  · rename_i hmem
    constructor
    · exact Or.inl
    · rintro (h | rfl)
      · exact h
      · exact hmem
  · simp

theorem mem_foldl_insertOnce : ∀ (l acc : List Str) (x : Str),
    x ∈ l.foldl insertOnce acc ↔ x ∈ acc ∨ x ∈ l
  | [], acc, x => by simp
  | a :: l, acc, x => by
      rw [List.foldl_cons, mem_foldl_insertOnce l _ x, mem_insertOnce]
      simp only [List.mem_cons]
      tauto

theorem mem_listToSet {l : List Str} {x : Str} : x ∈ listToSet l ↔ x ∈ l := by
  rw [listToSet, mem_foldl_insertOnce]
  simp

theorem mem_keys_dictInsert (d : List (Str × BFile)) (k : Str) (v : BFile) (q : Str) :
    q ∈ (dictInsert d k v).map (fun e => e.1) ↔ q ∈ d.map (fun e => e.1) ∨ q = k := by
  rw [dictInsert]
  split
  · rename_i hmem
    have : (d.map (fun p => if p.1 = k then (k, v) else p)).map (fun e => e.1) =
        d.map (fun e => e.1) := by
      rw [List.map_map]
      refine List.map_congr_left (fun p _ => ?_)
      by_cases hp : p.1 = k
      · simp [hp]
      · simp [hp]
    rw [this]
    constructor
    · exact Or.inl
    · rintro (h | rfl)
      · exact h
      · exact hmem
  · rw [List.map_append]
    simp only [List.mem_append, List.map_cons, List.map_nil, List.mem_singleton]

theorem lookupEntry_of_mem_nodup : ∀ (t : Tree), (t.map (fun e => e.1)).Nodup →
    ∀ {p : Str} {e : Entry}, (p, e) ∈ t → lookupEntry t p = some e
  | [], _, _, _, h => absurd h (List.not_mem_nil _)
  | (q, f) :: t, hnd, p, e, h => by
      rw [List.map_cons, List.nodup_cons] at hnd
      rcases List.mem_cons.mp h with heq | hmem
      · injection heq with h1 h2
        subst h1
        subst h2
        rw [lookupEntry, if_pos rfl]
      · have hne : ¬ (q = p) := by
          intro hqp
          subst hqp
          exact hnd.1 (List.mem_map.mpr ⟨(q, e), hmem, rfl⟩)
        rw [lookupEntry, if_neg hne]
        exact lookupEntry_of_mem_nodup t hnd.2 hmem

theorem lookupEntry_eq_none_iff : ∀ (t : Tree) (q : Str),
    lookupEntry t q = none ↔ q ∉ t.map (fun e => e.1)
  | [], q => by
      constructor
      · intro _ hm
        exact absurd hm (List.not_mem_nil q)
      · intro _
        rfl
  | (p, e) :: t, q => by
      rw [lookupEntry]
      by_cases hp : p = q
      · subst hp
        rw [if_pos rfl]
        constructor
        · intro h
          exact absurd h (by simp)
        · intro h
          exact absurd (List.mem_map.mpr ⟨(p, e), List.mem_cons_self _ _, rfl⟩) h
      · rw [if_neg hp, lookupEntry_eq_none_iff t q, List.map_cons]
        constructor
        · intro h hm
          rcases List.mem_cons.mp hm with heq | hm2
          · exact hp heq.symm
          · exact h hm2
        · intro h hm
          exact h (List.mem_cons_of_mem _ hm)

theorem mem_get_all_files {t : Tree} {p : Str} :
    p ∈ get_all_files t ↔ ∃ e, (p, e) ∈ t ∧ entryIsFile e = true := by
  rw [get_all_files, mem_listToSet]
  constructor
  · intro h
    obtain ⟨⟨p', e⟩, hmem, rfl⟩ := List.mem_map.mp h
    exact ⟨e, (List.mem_filter.mp hmem).1, (List.mem_filter.mp hmem).2⟩
  · rintro ⟨e, hmem, hf⟩
    exact List.mem_map.mpr ⟨(p, e), List.mem_filter.mpr ⟨hmem, hf⟩, rfl⟩

theorem mem_get_all_dirs {t : Tree} {p : Str} :
    p ∈ get_all_dirs t ↔ ∃ e, (p, e) ∈ t ∧ entryIsDir e = true := by
  rw [get_all_dirs, mem_listToSet]
  constructor
  · intro h
    obtain ⟨⟨p', e⟩, hmem, rfl⟩ := List.mem_map.mp h
    exact ⟨e, (List.mem_filter.mp hmem).1, (List.mem_filter.mp hmem).2⟩
  · rintro ⟨e, hmem, hf⟩
    exact List.mem_map.mpr ⟨(p, e), List.mem_filter.mpr ⟨hmem, hf⟩, rfl⟩

/-! ## Well-formedness eliminations and token facts -/

theorem goodPathB_elim {s : Str} (h : goodPathB s = true) :
    hasDoubleSp s = false ∧ '\n' ∉ s ∧ s.getLast? ≠ some ' ' := by
  rw [goodPathB] at h
  simp only [Bool.and_eq_true, Bool.not_eq_true', bne_iff_ne] at h
  refine ⟨h.1.1, ?_, h.2⟩
  intro hm
  have hc := h.1.2
  simp at hc
  exact hc hm

theorem goodModeB_elim {s : Str} (h : goodModeB s = true) :
    hasDoubleSp s = false ∧ '\n' ∉ s := by
  rw [goodModeB] at h
  simp only [Bool.and_eq_true, Bool.not_eq_true'] at h
  refine ⟨h.1, ?_⟩
  intro hm
  have hc := h.2
  simp at hc
  exact hc hm

theorem getLast?_ne_space_of_chars {s : Str} (h : ∀ c ∈ s, c ≠ ' ') :
    s.getLast? ≠ some ' ' := by
  cases hg : s.getLast? with
  | none => simp
  | some c =>
      have := h c (List.mem_of_mem_getLast? hg)
      simpa using this

theorem natToChars_token (n : Nat) : hasDoubleSp (natToChars n) = false ∧
    (natToChars n).getLast? ≠ some ' ' ∧ '\n' ∉ natToChars n := by
  have hf := natToChars_char_facts n
  refine ⟨hasDoubleSp_of_no_space _ (fun c hc => (hf c hc).2.1), ?_, ?_⟩
  · exact getLast?_ne_space_of_chars (fun c hc => (hf c hc).2.1)
  · intro hm
    exact (hf _ hm).2.2.1 rfl

theorem hex8_token (n : Nat) : hasDoubleSp (hex8 n) = false ∧
    (hex8 n).getLast? ≠ some ' ' ∧ '\n' ∉ hex8 n := by
  have hf := hex8_chars n
  refine ⟨hasDoubleSp_of_no_space _ (fun c hc => (hf c hc).2.1), ?_, ?_⟩
  · exact getLast?_ne_space_of_chars (fun c hc => (hf c hc).2.1)
  · intro hm
    exact (hf _ hm).2.2 rfl

/-! ## Serialized-line tokenization lemmas -/

theorem mem_joinTokens : ∀ (ts : List Str) (c : Char), c ∈ joinTokens ts →
    c = ' ' ∨ ∃ t ∈ ts, c ∈ t
  | [], c, h => absurd h (List.not_mem_nil c)
  | [t], c, h => Or.inr ⟨t, List.mem_cons_self t [], by simpa [joinTokens] using h⟩
  | t1 :: t2 :: ts, c, h => by
      rw [joinTokens_cons_cons] at h
      rcases List.mem_append.mp h with h1 | h1
      · exact Or.inr ⟨t1, List.mem_cons_self _ _, h1⟩
      · rcases List.mem_cons.mp h1 with hsp | h2
        · exact Or.inl hsp
        · rcases List.mem_cons.mp h2 with hsp | h3
          · exact Or.inl hsp
          · rcases mem_joinTokens (t2 :: ts) c h3 with hsp | ⟨t, ht, hc⟩
            · exact Or.inl hsp
            · exact Or.inr ⟨t, List.mem_cons_of_mem _ ht, hc⟩

theorem noNl_joinTokens {ts : List Str} (h : ∀ t ∈ ts, '\n' ∉ t) :
    '\n' ∉ joinTokens ts := by
  intro hm
  rcases mem_joinTokens ts '\n' hm with hsp | ⟨t, ht, hc⟩
  · exact absurd hsp (by decide)
  · exact h t ht hc

theorem pyRstripNl_eq_self {s : Str} (h : '\n' ∉ s) : pyRstripNl s = s := by
  rw [pyRstripNl, dropWhile_eq_self_of_all _ s.reverse (fun c hc => ?_), List.reverse_reverse]
  have : c ≠ '\n' := fun hcn => h (hcn ▸ List.mem_reverse.mp hc)
  simpa using this

theorem str_DIR_token : hasDoubleSp (str "DIR") = false ∧
    (str "DIR").getLast? ≠ some ' ' ∧ '\n' ∉ str "DIR" := by decide

theorem str_FILE_token : hasDoubleSp (str "FILE") = false ∧
    (str "FILE").getLast? ≠ some ' ' ∧ '\n' ∉ str "FILE" := by decide

theorem split2_dirLine {rel m : Str} (u g : Nat)
    (hrel : goodPathB rel = true) (hm : goodModeB m = true) :
    split2 (dirLine rel u g m) = [str "DIR", rel, natToChars u, natToChars g, m] := by
  rw [dirLine]
  refine split2_joinTokens _ (by simp) ?_ ?_
  · intro t ht
    simp only [List.mem_cons, List.not_mem_nil, or_false] at ht
    rcases ht with rfl | rfl | rfl | rfl | rfl
    · exact str_DIR_token.1
    · exact (goodPathB_elim hrel).1
    · exact (natToChars_token u).1
    · exact (natToChars_token g).1
    · exact (goodModeB_elim hm).1
  · intro t ht
    simp only [List.dropLast, List.mem_cons, List.not_mem_nil, or_false] at ht
    rcases ht with rfl | rfl | rfl | rfl
    · exact str_DIR_token.2.1
    · exact (goodPathB_elim hrel).2.2
    · exact (natToChars_token u).2.1
    · exact (natToChars_token g).2.1

theorem noNl_dirLine {rel m : Str} (u g : Nat)
    (hrel : goodPathB rel = true) (hm : goodModeB m = true) :
    '\n' ∉ dirLine rel u g m := by
  rw [dirLine]
  refine noNl_joinTokens ?_
  intro t ht
  simp only [List.mem_cons, List.not_mem_nil, or_false] at ht
  rcases ht with rfl | rfl | rfl | rfl | rfl
  · exact str_DIR_token.2.2
  · exact (goodPathB_elim hrel).2.1
  · exact (natToChars_token u).2.2
  · exact (natToChars_token g).2.2
  · exact (goodModeB_elim hm).2

theorem split2_fileLineW {hash rel : Str} (size : Nat)
    (hh : hasDoubleSp hash = false ∧ hash.getLast? ≠ some ' ')
    (hrel : goodPathB rel = true) :
    split2 (fileLineW hash rel size) = [str "FILE", hash, rel, natToChars size] := by
  rw [fileLineW]
  refine split2_joinTokens _ (by simp) ?_ ?_
  · intro t ht
    simp only [List.mem_cons, List.not_mem_nil, or_false] at ht
    rcases ht with rfl | rfl | rfl | rfl
    · exact str_FILE_token.1
    · exact hh.1
    · exact (goodPathB_elim hrel).1
    · exact (natToChars_token size).1
  · intro t ht
    simp only [List.dropLast, List.mem_cons, List.not_mem_nil, or_false] at ht
    rcases ht with rfl | rfl | rfl
    · exact str_FILE_token.2.1
    · exact hh.2
    · exact (goodPathB_elim hrel).2.2

theorem noNl_fileLineW {hash rel : Str} (size : Nat) (hh : '\n' ∉ hash)
    (hrel : goodPathB rel = true) : '\n' ∉ fileLineW hash rel size := by
  rw [fileLineW]
  refine noNl_joinTokens ?_
  intro t ht
  simp only [List.mem_cons, List.not_mem_nil, or_false] at ht
  rcases ht with rfl | rfl | rfl | rfl
  · exact str_FILE_token.2.2
  · exact hh
  · exact (goodPathB_elim hrel).2.1
  · exact (natToChars_token size).2.2

theorem split2_fileLineL {hash rel m : Str} (size u g : Nat)
    (hh : hasDoubleSp hash = false ∧ hash.getLast? ≠ some ' ')
    (hrel : goodPathB rel = true) (hm : goodModeB m = true) :
    split2 (fileLineL hash rel size u g m) =
    [str "FILE", hash, rel, natToChars size, natToChars u, natToChars g, m] := by
  rw [fileLineL]
  refine split2_joinTokens _ (by simp) ?_ ?_
  · intro t ht
    simp only [List.mem_cons, List.not_mem_nil, or_false] at ht
    rcases ht with rfl | rfl | rfl | rfl | rfl | rfl | rfl
    · exact str_FILE_token.1
    · exact hh.1
    · exact (goodPathB_elim hrel).1
    · exact (natToChars_token size).1
    · exact (natToChars_token u).1
    · exact (natToChars_token g).1
    · exact (goodModeB_elim hm).1
  · intro t ht
    simp only [List.dropLast, List.mem_cons, List.not_mem_nil, or_false] at ht
    rcases ht with rfl | rfl | rfl | rfl | rfl | rfl
    · exact str_FILE_token.2.1
    · exact hh.2
    · exact (goodPathB_elim hrel).2.2
    · exact (natToChars_token size).2.1
    · exact (natToChars_token u).2.1
    · exact (natToChars_token g).2.1

theorem noNl_fileLineL {hash rel m : Str} (size u g : Nat) (hh : '\n' ∉ hash)
    (hrel : goodPathB rel = true) (hm : goodModeB m = true) :
    '\n' ∉ fileLineL hash rel size u g m := by
  rw [fileLineL]
  refine noNl_joinTokens ?_
  intro t ht
  simp only [List.mem_cons, List.not_mem_nil, or_false] at ht
  rcases ht with rfl | rfl | rfl | rfl | rfl | rfl | rfl
  · exact str_FILE_token.2.2
  · exact hh
  · exact (goodPathB_elim hrel).2.1
  · exact (natToChars_token size).2.2
  · exact (natToChars_token u).2.2
  · exact (natToChars_token g).2.2
  · exact (goodModeB_elim hm).2

/-! ## Action of the baseline reader on serialized lines -/

theorem str_FILE_ne_DIR : ¬ (str "FILE" = str "DIR") := by decide

theorem parseLine_dirLine (win : Bool) (acc : Parsed) {rel m : Str} (u g : Nat)
    (hrel : goodPathB rel = true) (hm : goodModeB m = true) :
    parseLine win acc (dirLine rel u g m) =
      some { acc with bDirs := insertOnce acc.bDirs rel } := by
  have e1 := pyRstripNl_eq_self (noNl_dirLine u g hrel hm)
  have e2 := split2_dirLine u g hrel hm
  simp only [parseLine, e1, e2, List.headI]
  simp [List.getD]

theorem parseLine_fileLineW (acc : Parsed) {hash rel : Str} (size : Nat)
    (hh : hasDoubleSp hash = false ∧ hash.getLast? ≠ some ' ' ∧ '\n' ∉ hash)
    (hrel : goodPathB rel = true) :
    parseLine true acc (fileLineW hash rel size) =
      some { acc with
        bFiles := dictInsert acc.bFiles rel ⟨hash, rel, (size : Int), 0, 0, []⟩,
        toCheck := acc.toCheck ++ [⟨hash, rel, (size : Int), 0, 0, []⟩] } := by
  have e1 := pyRstripNl_eq_self (noNl_fileLineW size hh.2.2 hrel)
  have e2 := split2_fileLineW size ⟨hh.1, hh.2.1⟩ hrel
  simp only [parseLine, e1, e2, List.headI]
  rw [if_neg str_FILE_ne_DIR]
  simp [List.getD, pyInt_natToChars]

theorem parseLine_fileLineL (acc : Parsed) {hash rel m : Str} (size u g : Nat)
    (hh : hasDoubleSp hash = false ∧ hash.getLast? ≠ some ' ' ∧ '\n' ∉ hash)
    (hrel : goodPathB rel = true) (hm : goodModeB m = true) :
    parseLine false acc (fileLineL hash rel size u g m) =
      some { acc with
        bFiles := dictInsert acc.bFiles rel ⟨hash, rel, (size : Int), (u : Int), (g : Int), m⟩,
        toCheck := acc.toCheck ++ [⟨hash, rel, (size : Int), (u : Int), (g : Int), m⟩] } := by
  have e1 := pyRstripNl_eq_self (noNl_fileLineL size u g hh.2.2 hrel hm)
  have e2 := split2_fileLineL size u g ⟨hh.1, hh.2.1⟩ hrel hm
  simp only [parseLine, e1, e2, List.headI]
  rw [if_neg str_FILE_ne_DIR]
  simp [List.getD, pyInt_natToChars]

/-! ## Running the baseline reader over a generated baseline -/

theorem parseAll_cons_some (win : Bool) (l : Str) (ls : List Str) (acc acc' : Parsed)
    (h : parseLine win acc l = some acc') :
    parseAll win (l :: ls) acc = parseAll win ls acc' := by
  rw [parseAll, h]

theorem parseAll_append (win : Bool) : ∀ (ls1 ls2 : List Str) (acc : Parsed),
    parseAll win (ls1 ++ ls2) acc = (parseAll win ls1 acc).bind (fun a => parseAll win ls2 a)
  | [], ls2, acc => rfl
  | l :: ls1, ls2, acc => by
      rw [List.cons_append, parseAll, parseAll]
      cases parseLine win acc l with
      | none => rfl
      | some acc' => exact parseAll_append win ls1 ls2 acc'

theorem process_file_hash_shape {tree : Tree} {rel : Str} {r : PResult}
    (h : process_file tree rel = some r) : ∃ n, r.hash = hex8 n := by
  rw [process_file] at h
  split at h
  · injection h with h'
    exact ⟨_, congrArg PResult.hash h'.symm⟩
  · injection h with h'
    exact ⟨_, congrArg PResult.hash h'.symm⟩
  · exact absurd h (by simp)

theorem hash_token_of_process {tree : Tree} {rel : Str} {r : PResult}
    (h : process_file tree rel = some r) :
    hasDoubleSp r.hash = false ∧ r.hash.getLast? ≠ some ' ' ∧ '\n' ∉ r.hash := by
  obtain ⟨n, hn⟩ := process_file_hash_shape h
  rw [hn]
  exact hex8_token n

theorem parseAll_dir_segment (win : Bool) (tree : Tree) :
    ∀ (rels : List Str) (acc : Parsed),
    (∀ rel ∈ rels, goodPathB rel = true ∧
      ∃ md : Nat × Nat × Str, dirStat tree rel = some md ∧ goodModeB md.2.2 = true) →
    ∃ p, parseAll win
        (rels.filterMap (fun rel => (dirStat tree rel).map
          (fun md => dirLine rel md.1 md.2.1 md.2.2))) acc = some p ∧
      (∀ r, r ∈ p.bDirs ↔ r ∈ acc.bDirs ∨ r ∈ rels) ∧
      p.bFiles = acc.bFiles ∧ p.toCheck = acc.toCheck ∧ p.skipped = acc.skipped
  | [], acc, _ => ⟨acc, rfl, fun r => by simp, rfl, rfl, rfl⟩
  | rel :: rels, acc, h => by
      obtain ⟨hrel, md, hmd, hmode⟩ := h rel (List.mem_cons_self _ _)
      obtain ⟨p, hp, hdirs, hbf, htc, hsk⟩ :=
        parseAll_dir_segment win tree rels { acc with bDirs := insertOnce acc.bDirs rel }
          (fun r hr => h r (List.mem_cons_of_mem _ hr))
      refine ⟨p, ?_, ?_, hbf, htc, hsk⟩
      · rw [List.filterMap_cons, hmd]
        simp only [Option.map_some']
        rw [parseAll_cons_some win _ _ acc _ (parseLine_dirLine win acc md.1 md.2.1 hrel hmode)]
        exact hp
      · intro r
        rw [hdirs r]
        show r ∈ insertOnce acc.bDirs rel ∨ r ∈ rels ↔ _
        rw [mem_insertOnce]
        simp only [List.mem_cons]
        tauto

theorem parseAll_file_segment (win : Bool) (tree : Tree) :
    ∀ (rels : List Str) (acc : Parsed),
    (∀ rel ∈ rels, goodPathB rel = true ∧
      ∃ r : PResult, process_file tree rel = some r ∧ goodModeB r.mode = true) →
    ∃ p, parseAll win
        (rels.filterMap (fun rel => (process_file tree rel).map (fun r =>
          if win then fileLineW r.hash rel r.size
          else fileLineL r.hash rel r.size r.uid r.gid r.mode))) acc = some p ∧
      p.bDirs = acc.bDirs ∧
      (∀ k, k ∈ p.bFiles.map (fun e => e.1) ↔ k ∈ acc.bFiles.map (fun e => e.1) ∨ k ∈ rels) ∧
      (∀ rec, rec ∈ p.toCheck ↔ rec ∈ acc.toCheck ∨
        ∃ rel ∈ rels, ∃ r, process_file tree rel = some r ∧ rec = mkBFile win r rel) ∧
      p.skipped = acc.skipped
  | [], acc, _ => by
      refine ⟨acc, rfl, rfl, fun k => ?_, fun rec => ?_, rfl⟩
      · constructor
        · exact Or.inl
        · rintro (hk | hk)
          · exact hk
          · exact absurd hk (List.not_mem_nil k)
      · constructor
        · exact Or.inl
        · rintro (hm | ⟨x, hx, _⟩)
          · exact hm
          · exact absurd hx (List.not_mem_nil x)
  | rel :: rels, acc, h => by
      obtain ⟨hrel, r, hr, hmode⟩ := h rel (List.mem_cons_self _ _)
      have hht := hash_token_of_process hr
      have hstep : parseLine win acc
          (if win then fileLineW r.hash rel r.size
           else fileLineL r.hash rel r.size r.uid r.gid r.mode) =
          some { acc with
            bFiles := dictInsert acc.bFiles rel (mkBFile win r rel),
            toCheck := acc.toCheck ++ [mkBFile win r rel] } := by
        cases win with
        | true =>
            rw [if_pos rfl, parseLine_fileLineW acc r.size hht hrel]
            rfl
        | false =>
            rw [if_neg (by simp), parseLine_fileLineL acc r.size r.uid r.gid hht hrel hmode]
            rfl
      obtain ⟨p, hp, hbd, hkeys, htc, hsk⟩ :=
        parseAll_file_segment win tree rels
          { acc with
            bFiles := dictInsert acc.bFiles rel (mkBFile win r rel),
            toCheck := acc.toCheck ++ [mkBFile win r rel] }
          (fun x hx => h x (List.mem_cons_of_mem _ hx))
      refine ⟨p, ?_, hbd, ?_, ?_, hsk⟩
      · rw [List.filterMap_cons, hr]
        simp only [Option.map_some']
        rw [parseAll_cons_some win _ _ acc _ hstep]
        exact hp
      · intro k
        rw [hkeys k]
        show k ∈ (dictInsert acc.bFiles rel (mkBFile win r rel)).map (fun e => e.1) ∨ _ ↔ _
        rw [mem_keys_dictInsert]
        simp only [List.mem_cons]
        tauto
      · intro rec
        rw [htc rec]
        show rec ∈ acc.toCheck ++ [mkBFile win r rel] ∨ _ ↔ _
        rw [List.mem_append, List.mem_singleton]
        constructor
        · rintro ((hm | hm) | ⟨x, hx, rr, hrr, hrec⟩)
          · exact Or.inl hm
          · exact Or.inr ⟨rel, List.mem_cons_self _ _, r, hr, hm⟩
          · exact Or.inr ⟨x, List.mem_cons_of_mem _ hx, rr, hrr, hrec⟩
        · rintro (hm | ⟨x, hx, rr, hrr, hrec⟩)
          · exact Or.inl (Or.inl hm)
          · rcases List.mem_cons.mp hx with heq | hx2
            · subst heq
              rw [hr] at hrr
              injection hrr with hrr
              subst hrr
              exact Or.inl (Or.inr hrec)
            · exact Or.inr ⟨x, hx2, rr, hrr, hrec⟩

/-! ## Entry-level evaluation lemmas -/

theorem dirStat_dir {tree : Tree} {rel : Str} {u g : Nat} {m : Str}
    (h : lookupEntry tree rel = some (.dir u g m true)) :
    dirStat tree rel = some (u, g, m) := by
  rw [dirStat, h]

theorem dirStat_symlinkDir {tree : Tree} {rel : Str} {u g : Nat} {m : Str}
    (h : lookupEntry tree rel = some (.symlinkDir u g m true)) :
    dirStat tree rel = some (u, g, m) := by
  rw [dirStat, h]

theorem process_file_file {tree : Tree} {rel : Str} {content : List Nat} {u g : Nat} {m : Str}
    (h : lookupEntry tree rel = some (.file content u g m true)) :
    process_file tree rel = some ⟨crc32_of_file content, content.length, u, g, m⟩ := by
  rw [process_file, h]

theorem process_file_symlinkFile {tree : Tree} {rel : Str} {content : List Nat} {u g : Nat}
    {m : Str} (h : lookupEntry tree rel = some (.symlinkFile content u g m true)) :
    process_file tree rel = some ⟨crc32_of_file content, content.length, u, g, m⟩ := by
  rw [process_file, h]

theorem process_file_none {tree : Tree} {rel : Str} (h : lookupEntry tree rel = none) :
    process_file tree rel = none := by
  rw [process_file, h]

theorem mkBFile_rel (win : Bool) (r : PResult) (rel : Str) : (mkBFile win r rel).rel = rel := by
  cases win <;> rfl

theorem mkBFile_hash (win : Bool) (r : PResult) (rel : Str) :
    (mkBFile win r rel).hash = r.hash := by
  cases win <;> rfl

theorem mkBFile_size (win : Bool) (r : PResult) (rel : Str) :
    (mkBFile win r rel).size = (r.size : Int) := by
  cases win <;> rfl

theorem mkBFile_uid (r : PResult) (rel : Str) : (mkBFile false r rel).uid = (r.uid : Int) := rfl

theorem mkBFile_gid (r : PResult) (rel : Str) : (mkBFile false r rel).gid = (r.gid : Int) := rfl

theorem mkBFile_mode (r : PResult) (rel : Str) : (mkBFile false r rel).mode = r.mode := rfl

theorem dir_fact_of_goodTree {tree : Tree} (hg : goodTree tree) :
    ∀ rel ∈ get_all_dirs tree, goodPathB rel = true ∧
      ∃ md : Nat × Nat × Str, dirStat tree rel = some md ∧ goodModeB md.2.2 = true := by
  intro rel hrel
  obtain ⟨e, hmem, hdir⟩ := mem_get_all_dirs.mp hrel
  have hpath := (hg.2 (rel, e) hmem).1
  have hok := (hg.2 (rel, e) hmem).2
  have hlook := lookupEntry_of_mem_nodup tree hg.1 hmem
  refine ⟨hpath, ?_⟩
  cases e with
  | dir u g m ok =>
      rw [entryOk, Bool.and_eq_true] at hok
      obtain rfl : ok = true := hok.2
      exact ⟨(u, g, m), dirStat_dir hlook, hok.1⟩
  | symlinkDir u g m ok =>
      rw [entryOk, Bool.and_eq_true] at hok
      obtain rfl : ok = true := hok.2
      exact ⟨(u, g, m), dirStat_symlinkDir hlook, hok.1⟩
  | file content u g m rd => exact absurd hdir (by simp [entryIsDir])
  | symlinkFile content u g m rd => exact absurd hdir (by simp [entryIsDir])
  | brokenSymlink => exact absurd hdir (by simp [entryIsDir])
  | special => exact absurd hdir (by simp [entryIsDir])

theorem file_fact_of_goodTree {tree : Tree} (hg : goodTree tree) :
    ∀ rel ∈ get_all_files tree, goodPathB rel = true ∧
      ∃ r : PResult, process_file tree rel = some r ∧ goodModeB r.mode = true := by
  intro rel hrel
  obtain ⟨e, hmem, hfile⟩ := mem_get_all_files.mp hrel
  have hpath := (hg.2 (rel, e) hmem).1
  have hok := (hg.2 (rel, e) hmem).2
  have hlook := lookupEntry_of_mem_nodup tree hg.1 hmem
  refine ⟨hpath, ?_⟩
  cases e with
  | file content u g m rd =>
      rw [entryOk, Bool.and_eq_true] at hok
      obtain rfl : rd = true := hok.2
      exact ⟨⟨crc32_of_file content, content.length, u, g, m⟩, process_file_file hlook, hok.1⟩
  | symlinkFile content u g m rd =>
      rw [entryOk, Bool.and_eq_true] at hok
      obtain rfl : rd = true := hok.2
      exact ⟨⟨crc32_of_file content, content.length, u, g, m⟩,
        process_file_symlinkFile hlook, hok.1⟩
  | dir u g m ok => exact absurd hfile (by simp [entryIsFile])
  | symlinkDir u g m ok => exact absurd hfile (by simp [entryIsFile])
  | brokenSymlink => exact absurd hfile (by simp [entryIsFile])
  | special => exact absurd hfile (by simp [entryIsFile])

theorem parseAll_generated (win : Bool) (tree : Tree) (hg : goodTree tree) :
    ∃ p, parseAll win (pyReadLines (generate_baseline win tree)) initParsed = some p ∧
      (∀ r, r ∈ p.bDirs ↔ r ∈ get_all_dirs tree) ∧
      (∀ k, k ∈ p.bFiles.map (fun e => e.1) ↔ k ∈ get_all_files tree) ∧
      (∀ rec, rec ∈ p.toCheck ↔ ∃ rel ∈ get_all_files tree, ∃ r,
        process_file tree rel = some r ∧ rec = mkBFile win r rel) := by
  have hdirf := dir_fact_of_goodTree hg
  have hfilef := file_fact_of_goodTree hg
  have hnl : ∀ l ∈ ((get_all_dirs tree).filterMap (fun rel => (dirStat tree rel).map
        (fun md => dirLine rel md.1 md.2.1 md.2.2))) ++
      ((get_all_files tree).filterMap (fun rel => (process_file tree rel).map (fun r =>
        if win then fileLineW r.hash rel r.size
        else fileLineL r.hash rel r.size r.uid r.gid r.mode))), '\n' ∉ l := by
    intro l hl
    rcases List.mem_append.mp hl with hl1 | hl1
    · obtain ⟨rel, hrel, hmap⟩ := List.mem_filterMap.mp hl1
      obtain ⟨hpath, md, hmd, hmode⟩ := hdirf rel hrel
      rw [hmd] at hmap
      injection hmap with hmap
      rw [← hmap]
      exact noNl_dirLine md.1 md.2.1 hpath hmode
    · obtain ⟨rel, hrel, hmap⟩ := List.mem_filterMap.mp hl1
      obtain ⟨hpath, r, hr, hmode⟩ := hfilef rel hrel
      rw [hr] at hmap
      injection hmap with hmap
      have hht := hash_token_of_process hr
      have hl2 : l = (if win then fileLineW r.hash rel r.size
          else fileLineL r.hash rel r.size r.uid r.gid r.mode) := hmap.symm
      rw [hl2]
      cases win with
      | true =>
          rw [if_pos rfl]
          exact noNl_fileLineW r.size hht.2.2 hpath
      | false =>
          rw [if_neg (by simp)]
          exact noNl_fileLineL r.size r.uid r.gid hht.2.2 hpath hmode
  have hlines : pyReadLines (generate_baseline win tree) =
      ((get_all_dirs tree).filterMap (fun rel => (dirStat tree rel).map
        (fun md => dirLine rel md.1 md.2.1 md.2.2))) ++
      ((get_all_files tree).filterMap (fun rel => (process_file tree rel).map (fun r =>
        if win then fileLineW r.hash rel r.size
        else fileLineL r.hash rel r.size r.uid r.gid r.mode))) := by
    rw [generate_baseline]
    exact pyReadLines_flatten _ hnl
  obtain ⟨p1, hp1, hd1, hf1, ht1, hs1⟩ :=
    parseAll_dir_segment win tree (get_all_dirs tree) initParsed hdirf
  obtain ⟨p2, hp2, hd2, hk2, ht2, hs2⟩ :=
    parseAll_file_segment win tree (get_all_files tree) p1 hfilef
  refine ⟨p2, ?_, ?_, ?_, ?_⟩
  · rw [hlines, parseAll_append, hp1]
    exact hp2
  · intro r
    rw [hd2, hd1 r]
    show (r ∈ (initParsed.bDirs) ∨ _) ↔ _
    constructor
    · rintro (hr | hr)
      · exact absurd hr (List.not_mem_nil r)
      · exact hr
    · exact Or.inr
  · intro k
    rw [hk2 k, hf1]
    show k ∈ (initParsed.bFiles).map (fun e => e.1) ∨ _ ↔ _
    constructor
    · rintro (hk | hk)
      · exact absurd hk (List.not_mem_nil k)
      · exact hk
    · exact Or.inr
  · intro rec
    rw [ht2 rec, ht1]
    show rec ∈ (initParsed.toCheck) ∨ _ ↔ _
    constructor
    · rintro (hr | hr)
      · exact absurd hr (List.not_mem_nil rec)
      · exact hr
    · exact Or.inr

/-! ## The reconciliation record produced by a successful parse -/

theorem contains_iff_mem {l : List Str} {x : Str} : l.contains x = true ↔ x ∈ l := by
  simp

theorem verify_integrity_eq (win idm rt : Bool) (tree : Tree) (log : Str) (p : Parsed)
    (hp : parseAll win (pyReadLines log) initParsed = some p) :
    verify_integrity win idm rt tree log = some {
      dirMissing := p.bDirs.filter (fun rel => !((get_all_dirs tree).contains rel))
      dirMetaErr := p.bDirs.filter (fun rel =>
        (get_all_dirs tree).contains rel && !win && (dirStat tree rel).isNone)
      dirExtra := (get_all_dirs tree).filter (fun rel => !(p.bDirs.contains rel))
      fileError := p.toCheck.filterMap (fun e =>
        if (process_file tree e.rel).isNone then some e.rel else none)
      fileHash := p.toCheck.filterMap (fun e =>
        (process_file tree e.rel).bind fun r =>
          if r.hash ≠ e.hash then some e.rel else none)
      fileSize := p.toCheck.filterMap (fun e =>
        (process_file tree e.rel).bind fun r =>
          if (r.size : Int) ≠ e.size then some e.rel else none)
      fileUid := if win then [] else p.toCheck.filterMap (fun e =>
        (process_file tree e.rel).bind fun r =>
          if (r.uid : Int) ≠ e.uid then some e.rel else none)
      fileGid := if win then [] else p.toCheck.filterMap (fun e =>
        (process_file tree e.rel).bind fun r =>
          if (r.gid : Int) ≠ e.gid then some e.rel else none)
      fileMode := if win then [] else p.toCheck.filterMap (fun e =>
        (process_file tree e.rel).bind fun r =>
          if r.mode ≠ e.mode then some e.rel else none)
      fileIdmap := if win then [] else p.toCheck.filterMap (fun e =>
        (process_file tree e.rel).bind fun r =>
          if idm && (r.uid = 65534 || r.gid = 65534) then some e.rel else none)
      fileRoot := if win then [] else p.toCheck.filterMap (fun e =>
        (process_file tree e.rel).bind fun r =>
          if rt && (r.uid = 0 || r.gid = 0) then some e.rel else none)
      fileMissing := (p.bFiles.map (fun e => e.1)).filter
        (fun rel => !((get_all_files tree).contains rel))
      fileExtra := (get_all_files tree).filter
        (fun rel => !((p.bFiles.map (fun e => e.1)).contains rel)) } := by
  rw [verify_integrity, hp]

/-! ## Round trip: baseline then verify over an unchanged tree -/

theorem roundtrip_clean (win idm rt : Bool) (tree : Tree) (hg : goodTree tree) :
    ∃ rep, verify_integrity win idm rt tree (generate_baseline win tree) = some rep ∧
      rep.dirMissing = [] ∧ rep.dirExtra = [] ∧ rep.dirMetaErr = [] ∧
      rep.fileMissing = [] ∧ rep.fileExtra = [] ∧ rep.fileError = [] ∧
      rep.fileHash = [] ∧ rep.fileSize = [] ∧ rep.fileUid = [] ∧
      rep.fileGid = [] ∧ rep.fileMode = [] := by
  obtain ⟨p, hp, hbd, hbk, htc⟩ := parseAll_generated win tree hg
  refine ⟨_, verify_integrity_eq win idm rt tree _ p hp,
    ?_, ?_, ?_, ?_, ?_, ?_, ?_, ?_, ?_, ?_, ?_⟩
  · refine List.filter_eq_nil_iff.mpr ?_
    intro rel hrel
    have hm := (hbd rel).mp hrel
    simp [hm]
  · refine List.filter_eq_nil_iff.mpr ?_
    intro rel hrel
    have hm := (hbd rel).mpr hrel
    simp [hm]
  · refine List.filter_eq_nil_iff.mpr ?_
    intro rel hrel
    obtain ⟨_, md, hmd, _⟩ := dir_fact_of_goodTree hg rel ((hbd rel).mp hrel)
    simp [hmd]
  · refine List.filter_eq_nil_iff.mpr ?_
    intro rel hrel
    have hm := (hbk rel).mp hrel
    simp [hm]
  · refine List.filter_eq_nil_iff.mpr ?_
    intro rel hrel
    have hm := (hbk rel).mpr hrel
    simp [hm]
  · refine List.filterMap_eq_nil_iff.mpr ?_
    intro e he
    obtain ⟨rel, hrelmem, r, hr, rfl⟩ := (htc e).mp he
    simp [mkBFile_rel, hr]
  · refine List.filterMap_eq_nil_iff.mpr ?_
    intro e he
    obtain ⟨rel, hrelmem, r, hr, rfl⟩ := (htc e).mp he
    simp [mkBFile_rel, hr, mkBFile_hash]
  · refine List.filterMap_eq_nil_iff.mpr ?_
    intro e he
    obtain ⟨rel, hrelmem, r, hr, rfl⟩ := (htc e).mp he
    simp [mkBFile_rel, hr, mkBFile_size]
  · cases win with
    | true => rfl
    | false =>
        refine List.filterMap_eq_nil_iff.mpr ?_
        intro e he
        obtain ⟨rel, hrelmem, r, hr, rfl⟩ := (htc e).mp he
        simp [mkBFile_rel, hr, mkBFile_uid]
  · cases win with
    | true => rfl
    | false =>
        refine List.filterMap_eq_nil_iff.mpr ?_
        intro e he
        obtain ⟨rel, hrelmem, r, hr, rfl⟩ := (htc e).mp he
        simp [mkBFile_rel, hr, mkBFile_gid]
  · cases win with
    | true => rfl
    | false =>
        refine List.filterMap_eq_nil_iff.mpr ?_
        intro e he
        obtain ⟨rel, hrelmem, r, hr, rfl⟩ := (htc e).mp he
        simp [mkBFile_rel, hr, mkBFile_mode]

/-! ## Structural facts about the baseline reader on arbitrary lines -/

theorem parseLine_cases (win : Bool) (acc : Parsed) (l : Str) (acc' : Parsed)
    (h : parseLine win acc l = some acc') :
    (acc'.bDirs = acc.bDirs ∧ acc'.bFiles = acc.bFiles ∧ acc'.toCheck = acc.toCheck) ∨
    (∃ rel, acc'.bDirs = insertOnce acc.bDirs rel ∧ acc'.bFiles = acc.bFiles ∧
      acc'.toCheck = acc.toCheck) ∨
    (∃ rel rec0, rec0.rel = rel ∧ acc'.bDirs = acc.bDirs ∧
      acc'.bFiles = dictInsert acc.bFiles rel rec0 ∧
      acc'.toCheck = acc.toCheck ++ [rec0]) := by
  rw [parseLine] at h
  split at h
  · split at h
    · injection h with h
      subst h
      exact Or.inl ⟨rfl, rfl, rfl⟩
    · injection h with h
      subst h
      exact Or.inr (Or.inl ⟨_, rfl, rfl, rfl⟩)
  · split at h
    · split at h
      · split at h
        · injection h with h
          subst h
          exact Or.inl ⟨rfl, rfl, rfl⟩
        · split at h
          · exact absurd h (by simp)
          · injection h with h
            subst h
            exact Or.inr (Or.inr ⟨_, _, rfl, rfl, rfl, rfl⟩)
      · split at h
        · injection h with h
          subst h
          exact Or.inl ⟨rfl, rfl, rfl⟩
        · split at h
          · injection h with h
            subst h
            exact Or.inr (Or.inr ⟨_, _, rfl, rfl, rfl, rfl⟩)
          · exact absurd h (by simp)
    · injection h with h
      subst h
      exact Or.inl ⟨rfl, rfl, rfl⟩

theorem parseAll_keys_iff (win : Bool) : ∀ (ls : List Str) (acc p : Parsed),
    parseAll win ls acc = some p →
    (∀ k, k ∈ acc.bFiles.map (fun e => e.1) ↔ ∃ rec ∈ acc.toCheck, rec.rel = k) →
    ∀ k, k ∈ p.bFiles.map (fun e => e.1) ↔ ∃ rec ∈ p.toCheck, rec.rel = k
  | [], acc, p, h, hinv => by
      rw [parseAll] at h
      injection h with h
      subst h
      exact hinv
  | l :: ls, acc, p, h, hinv => by
      rw [parseAll] at h
      cases hl : parseLine win acc l with
      | none =>
          rw [hl] at h
          exact absurd h (by simp)
      | some acc' =>
          rw [hl] at h
          refine parseAll_keys_iff win ls acc' p h ?_
          rcases parseLine_cases win acc l acc' hl with
            ⟨hbd, hbf, htc⟩ | ⟨rel, hbd, hbf, htc⟩ | ⟨rel, rec0, hrel, hbd, hbf, htc⟩
          · intro k
            rw [hbf, htc]
            exact hinv k
          · intro k
            rw [hbf, htc]
            exact hinv k
          · intro k
            rw [hbf, htc, mem_keys_dictInsert]
            constructor
            · rintro (hk | rfl)
              · obtain ⟨rec, hrec, hrk⟩ := (hinv k).mp hk
                exact ⟨rec, List.mem_append_left _ hrec, hrk⟩
              · exact ⟨rec0, List.mem_append_right _ (List.mem_singleton.mpr rfl), hrel⟩
            · rintro ⟨rec, hrec, hrk⟩
              rcases List.mem_append.mp hrec with h1 | h1
              · exact Or.inl ((hinv k).mpr ⟨rec, h1, hrk⟩)
              · rw [List.mem_singleton] at h1
                subst h1
                exact Or.inr (hrk.symm.trans hrel)

theorem bind_if_eq_some {o : Option PResult} {c : PResult → Prop} [inst : ∀ r, Decidable (c r)]
    {out rel : Str} (h : (o.bind fun r => if c r then some out else none) = some rel) :
    out = rel ∧ ∃ r, o = some r ∧ c r := by
  cases o with
  | none => exact absurd h (by simp)
  | some r =>
      rw [Option.some_bind] at h
      split at h
      · injection h with h
        rename_i hc
        exact ⟨h, r, rfl, hc⟩
      · exact absurd h (by simp)

/-! ## Valid and invalid lines -/

theorem lineValid_not_invalidKind {win : Bool} {l : Str} (h : lineValid win l = true) :
    lineInvalidKind win l = false := by
  have hdf : (str "DIR" : Str) ≠ str "FILE" := by decide
  by_cases hA : (split2 (pyRstripNl l)).headI = str "DIR" <;>
    by_cases hF : (split2 (pyRstripNl l)).headI = str "FILE" <;>
      cases win <;>
        simp_all [lineValid, lineInvalidKind, bne, beq_iff_eq]

theorem lineInvalidKind_not_valid {win : Bool} {l : Str} (h : lineInvalidKind win l = true) :
    lineValid win l = false := by
  cases hv : lineValid win l with
  | false => rfl
  | true => exact absurd (lineValid_not_invalidKind hv) (by simp [h])

theorem parseLine_of_invalidKind (win : Bool) (acc : Parsed) (l : Str)
    (h : lineInvalidKind win l = true) :
    parseLine win acc l = some { acc with skipped := acc.skipped ++ [l] } := by
  simp only [lineInvalidKind, Bool.or_eq_true, Bool.and_eq_true, beq_iff_eq, bne_iff_ne] at h
  simp only [parseLine]
  by_cases h1 : (split2 (pyRstripNl l)).headI = str "DIR"
  · rw [if_pos h1]
    rcases h with (⟨_, hlen⟩ | ⟨hf, _⟩) | ⟨hnd, _⟩
    · rw [if_pos hlen]
    · exact absurd (h1.symm.trans hf) (by decide)
    · exact absurd h1 hnd
  · rw [if_neg h1]
    by_cases h2 : (split2 (pyRstripNl l)).headI = str "FILE"
    · rw [if_pos h2]
      rcases h with (⟨hd, _⟩ | ⟨_, hlen⟩) | ⟨_, hnf⟩
      · exact absurd hd h1
      · cases win with
        | true =>
            have hlen4 : (split2 (pyRstripNl l)).length ≠ 4 := by simpa using hlen
            simp [hlen4]
        | false =>
            have hlen7 : (split2 (pyRstripNl l)).length ≠ 7 := by simpa using hlen
            simp [hlen7]
      · exact absurd h2 hnf
    · rw [if_neg h2]

theorem parseLine_of_valid (win : Bool) (l : Str) (h : lineValid win l = true) :
    (∃ rel, ∀ acc, parseLine win acc l = some { acc with bDirs := insertOnce acc.bDirs rel }) ∨
    (∃ rel rec0, BFile.rel rec0 = rel ∧ ∀ acc, parseLine win acc l =
      some { acc with bFiles := dictInsert acc.bFiles rel rec0,
                      toCheck := acc.toCheck ++ [rec0] }) := by
  simp only [lineValid, Bool.or_eq_true, Bool.and_eq_true, beq_iff_eq] at h
  rcases h with ⟨hd, hlen⟩ | ⟨hf, hrest⟩
  · left
    refine ⟨(split2 (pyRstripNl l)).getD 1 [], fun acc => ?_⟩
    simp only [parseLine]
    rw [if_pos hd, if_neg (fun hne => hne hlen)]
  · right
    have hnd : ¬ ((split2 (pyRstripNl l)).headI = str "DIR") :=
      fun hdd => absurd (hdd.symm.trans hf) (by decide)
    cases win with
    | true =>
        simp only [if_true, Bool.and_eq_true, beq_iff_eq, Option.isSome_iff_exists] at hrest
        obtain ⟨hlen, sz, hsz⟩ := hrest
        refine ⟨(split2 (pyRstripNl l)).getD 2 [],
          ⟨(split2 (pyRstripNl l)).getD 1 [], (split2 (pyRstripNl l)).getD 2 [], sz, 0, 0, []⟩,
          rfl, fun acc => ?_⟩
        simp only [parseLine]
        rw [if_neg hnd, if_pos hf]
        have hne4 : ¬ ((split2 (pyRstripNl l)).length ≠ 4) := fun hne => hne hlen
        rw [if_neg hne4, if_pos trivial, hsz]
    | false =>
        simp only [Bool.false_eq_true, if_false, Bool.and_eq_true, beq_iff_eq,
          Option.isSome_iff_exists] at hrest
        obtain ⟨⟨⟨hlen, sz, hsz⟩, u, hu⟩, g, hg⟩ := hrest
        refine ⟨(split2 (pyRstripNl l)).getD 2 [],
          ⟨(split2 (pyRstripNl l)).getD 1 [], (split2 (pyRstripNl l)).getD 2 [], sz, u, g,
            (split2 (pyRstripNl l)).getD 6 []⟩,
          rfl, fun acc => ?_⟩
        simp only [parseLine]
        rw [if_neg hnd, if_pos hf]
        have hne7 : ¬ ((split2 (pyRstripNl l)).length ≠ 7) := fun hne => hne hlen
        rw [if_neg hne7, hsz, hu, hg]
        rfl

theorem parseAll_filter_valid_aux (win : Bool) : ∀ (lines : List Str) (bD : List Str)
    (bF : List (Str × BFile)) (tC : List BFile) (s1 s2 : List Str),
    (∀ l ∈ lines, lineValid win l = true ∨ lineInvalidKind win l = true) →
    ∃ q : Parsed,
      parseAll win (lines.filter (fun l => lineValid win l)) ⟨bD, bF, tC, s1⟩ = some q ∧
      q.skipped = s1 ∧
      parseAll win lines ⟨bD, bF, tC, s2⟩ =
        some ⟨q.bDirs, q.bFiles, q.toCheck, s2 ++ lines.filter (fun l => lineInvalidKind win l)⟩
  | [], bD, bF, tC, s1, s2, _ => ⟨⟨bD, bF, tC, s1⟩, rfl, rfl, by simp [parseAll]⟩
  | l :: rest, bD, bF, tC, s1, s2, h => by
      rcases h l (List.mem_cons_self _ _) with hval | hinv
      · have hni : lineInvalidKind win l = false := lineValid_not_invalidKind hval
        rw [List.filter_cons_of_pos (by simp [hval]), List.filter_cons_of_neg (by simp [hni])]
        rcases parseLine_of_valid win l hval with ⟨rel, hupd⟩ | ⟨rel, rec0, hrel, hupd⟩
        · obtain ⟨q, hq1, hq2, hq3⟩ := parseAll_filter_valid_aux win rest
            (insertOnce bD rel) bF tC s1 s2 (fun x hx => h x (List.mem_cons_of_mem _ hx))
          refine ⟨q, ?_, hq2, ?_⟩
          · rw [parseAll_cons_some win l _ _ _ (hupd ⟨bD, bF, tC, s1⟩)]
            exact hq1
          · rw [parseAll_cons_some win l _ _ _ (hupd ⟨bD, bF, tC, s2⟩)]
            exact hq3
        · obtain ⟨q, hq1, hq2, hq3⟩ := parseAll_filter_valid_aux win rest
            bD (dictInsert bF rel rec0) (tC ++ [rec0]) s1 s2
            (fun x hx => h x (List.mem_cons_of_mem _ hx))
          refine ⟨q, ?_, hq2, ?_⟩
          · rw [parseAll_cons_some win l _ _ _ (hupd ⟨bD, bF, tC, s1⟩)]
            exact hq1
          · rw [parseAll_cons_some win l _ _ _ (hupd ⟨bD, bF, tC, s2⟩)]
            exact hq3
      · have hnv : lineValid win l = false := lineInvalidKind_not_valid hinv
        rw [List.filter_cons_of_neg (by simp [hnv]), List.filter_cons_of_pos (by simp [hinv])]
        obtain ⟨q, hq1, hq2, hq3⟩ := parseAll_filter_valid_aux win rest
          bD bF tC s1 (s2 ++ [l]) (fun x hx => h x (List.mem_cons_of_mem _ hx))
        refine ⟨q, hq1, hq2, ?_⟩
        rw [parseAll_cons_some win l _ _ _ (parseLine_of_invalidKind win ⟨bD, bF, tC, s2⟩ l hinv),
          hq3]
        simp

/-! ## Category membership helpers -/

theorem lookup_ne_none_of_mem_files {tree : Tree} {rel : Str}
    (h : rel ∈ get_all_files tree) : lookupEntry tree rel ≠ none := by
  obtain ⟨e, hmem, _⟩ := mem_get_all_files.mp h
  intro hn
  exact (lookupEntry_eq_none_iff tree rel).mp hn (List.mem_map.mpr ⟨(rel, e), hmem, rfl⟩)

theorem lookup_ne_none_of_mem_dirs {tree : Tree} {rel : Str}
    (h : rel ∈ get_all_dirs tree) : lookupEntry tree rel ≠ none := by
  obtain ⟨e, hmem, _⟩ := mem_get_all_dirs.mp h
  intro hn
  exact (lookupEntry_eq_none_iff tree rel).mp hn (List.mem_map.mpr ⟨(rel, e), hmem, rfl⟩)

theorem fileError_out {tree : Tree} {e : BFile} {rel : Str}
    (h : (if (process_file tree e.rel).isNone then some e.rel else none) = some rel) :
    e.rel = rel ∧ process_file tree e.rel = none := by
  split at h
  · rename_i hc
    injection h with h
    exact ⟨h, Option.isNone_iff_eq_none.mp hc⟩
  · exact absurd h (by simp)

theorem not_mem_compare_category {tree : Tree} {rel : Str} {toCheck : List BFile}
    (habs : process_file tree rel = none) (c : BFile → PResult → Prop)
    [inst : ∀ e r, Decidable (c e r)] :
    rel ∉ toCheck.filterMap (fun e => (process_file tree e.rel).bind fun r =>
      if c e r then some e.rel else none) := by
  intro hmem
  obtain ⟨e, _, hfeq⟩ := List.mem_filterMap.mp hmem
  obtain ⟨hrel, r, hr, _⟩ := bind_if_eq_some hfeq
  rw [hrel, habs] at hr
  exact Option.noConfusion hr

theorem not_mem_compare_category_of_not_key {tree : Tree} {rel : Str} {p : Parsed}
    (hkeys : ∀ k, k ∈ p.bFiles.map (fun e => e.1) ↔ ∃ rec ∈ p.toCheck, rec.rel = k)
    (hnb : rel ∉ p.bFiles.map (fun e => e.1)) (c : BFile → PResult → Prop)
    [inst : ∀ e r, Decidable (c e r)] :
    rel ∉ p.toCheck.filterMap (fun e => (process_file tree e.rel).bind fun r =>
      if c e r then some e.rel else none) := by
  intro hmem
  obtain ⟨e, he, hfeq⟩ := List.mem_filterMap.mp hmem
  obtain ⟨hrel, _, _, _⟩ := bind_if_eq_some hfeq
  exact hnb ((hkeys rel).mpr ⟨e, he, hrel⟩)

theorem keys_toCheck_iff {win : Bool} {log : Str} {p : Parsed}
    (hp : parseAll win (pyReadLines log) initParsed = some p) :
    ∀ k, k ∈ p.bFiles.map (fun e => e.1) ↔ ∃ rec ∈ p.toCheck, rec.rel = k :=
  parseAll_keys_iff win (pyReadLines log) initParsed p hp (fun k => by
    constructor
    · intro hk
      exact absurd hk (List.not_mem_nil k)
    · rintro ⟨rec, hrec, _⟩
      exact absurd hrec (List.not_mem_nil rec))

/-! ## The claims -/

/-- Claim C3 (confirmed): for every parsed baseline and every current tree,
verify reports exactly the set differences: a path is in MissingDir iff it is
in the baseline directory set and not in the current directory set, in
ExtraDir iff conversely, in MissingFile iff it is a baseline file key not
among the current files, and in ExtraFile iff it is a current file not among
the baseline file keys. -/
theorem claim3_set_differences (win idm rt : Bool) (tree : Tree) (log : Str) (p : Parsed)
    (hp : parseAll win (pyReadLines log) initParsed = some p) (rel : Str) :
    ∃ rep, verify_integrity win idm rt tree log = some rep ∧
      (rel ∈ rep.dirMissing ↔ rel ∈ p.bDirs ∧ rel ∉ get_all_dirs tree) ∧
      (rel ∈ rep.dirExtra ↔ rel ∈ get_all_dirs tree ∧ rel ∉ p.bDirs) ∧
      (rel ∈ rep.fileMissing ↔ rel ∈ p.bFiles.map (fun e => e.1) ∧
        rel ∉ get_all_files tree) ∧
      (rel ∈ rep.fileExtra ↔ rel ∈ get_all_files tree ∧
        rel ∉ p.bFiles.map (fun e => e.1)) := by
  refine ⟨_, verify_integrity_eq win idm rt tree log p hp, ?_, ?_, ?_, ?_⟩
  · constructor
    · intro hm
      obtain ⟨h1, h2⟩ := List.mem_filter.mp hm
      refine ⟨h1, fun hcur => ?_⟩
      rw [contains_iff_mem.mpr hcur] at h2
      simp at h2
    · rintro ⟨hb, hnc⟩
      refine List.mem_filter.mpr ⟨hb, ?_⟩
      cases hc : (get_all_dirs tree).contains rel with
      | false => rfl
      | true => exact absurd (contains_iff_mem.mp hc) hnc
  · constructor
    · intro hm
      obtain ⟨h1, h2⟩ := List.mem_filter.mp hm
      refine ⟨h1, fun hb => ?_⟩
      rw [contains_iff_mem.mpr hb] at h2
      simp at h2
    · rintro ⟨hcur, hnb⟩
      refine List.mem_filter.mpr ⟨hcur, ?_⟩
      cases hc : p.bDirs.contains rel with
      | false => rfl
      | true => exact absurd (contains_iff_mem.mp hc) hnb
  · constructor
    · intro hm
      obtain ⟨h1, h2⟩ := List.mem_filter.mp hm
      refine ⟨h1, fun hcur => ?_⟩
      rw [contains_iff_mem.mpr hcur] at h2
      simp at h2
    · rintro ⟨hb, hnc⟩
      refine List.mem_filter.mpr ⟨hb, ?_⟩
      cases hc : (get_all_files tree).contains rel with
      | false => rfl
      | true => exact absurd (contains_iff_mem.mp hc) hnc
  · constructor
    · intro hm
      obtain ⟨h1, h2⟩ := List.mem_filter.mp hm
      refine ⟨h1, fun hb => ?_⟩
      rw [contains_iff_mem.mpr hb] at h2
      simp at h2
    · rintro ⟨hcur, hnb⟩
      refine List.mem_filter.mpr ⟨hcur, ?_⟩
      cases hc : (p.bFiles.map (fun e => e.1)).contains rel with
      | false => rfl
      | true => exact absurd (contains_iff_mem.mp hc) hnb

/-- Witness for claim C3 at a concrete baseline and tree: one windows-profile
file record over an empty tree; the record's path is missing and nothing is
extra. -/
theorem claim3_witness :
    (parseAll true (pyReadLines (str "FILE  00000000  a.txt  0" ++ ['\n'])) initParsed =
      some ⟨[], [(str "a.txt", ⟨str "00000000", str "a.txt", 0, 0, 0, []⟩)],
        [⟨str "00000000", str "a.txt", 0, 0, 0, []⟩], []⟩) ∧
    (∃ rep, verify_integrity true false false []
        (str "FILE  00000000  a.txt  0" ++ ['\n']) = some rep ∧
      (str "a.txt" ∈ rep.dirMissing ↔ str "a.txt" ∈
        (⟨[], [(str "a.txt", ⟨str "00000000", str "a.txt", 0, 0, 0, []⟩)],
          [⟨str "00000000", str "a.txt", 0, 0, 0, []⟩], []⟩ : Parsed).bDirs ∧
        str "a.txt" ∉ get_all_dirs []) ∧
      (str "a.txt" ∈ rep.dirExtra ↔ str "a.txt" ∈ get_all_dirs [] ∧ str "a.txt" ∉
        (⟨[], [(str "a.txt", ⟨str "00000000", str "a.txt", 0, 0, 0, []⟩)],
          [⟨str "00000000", str "a.txt", 0, 0, 0, []⟩], []⟩ : Parsed).bDirs) ∧
      (str "a.txt" ∈ rep.fileMissing ↔ str "a.txt" ∈
        ((⟨[], [(str "a.txt", ⟨str "00000000", str "a.txt", 0, 0, 0, []⟩)],
          [⟨str "00000000", str "a.txt", 0, 0, 0, []⟩], []⟩ : Parsed)).bFiles.map
            (fun e => e.1) ∧ str "a.txt" ∉ get_all_files []) ∧
      (str "a.txt" ∈ rep.fileExtra ↔ str "a.txt" ∈ get_all_files [] ∧ str "a.txt" ∉
        ((⟨[], [(str "a.txt", ⟨str "00000000", str "a.txt", 0, 0, 0, []⟩)],
          [⟨str "00000000", str "a.txt", 0, 0, 0, []⟩], []⟩ : Parsed)).bFiles.map
            (fun e => e.1))) :=
  ⟨by decide, claim3_set_differences true false false []
    (str "FILE  00000000  a.txt  0" ++ ['\n'])
    ⟨[], [(str "a.txt", ⟨str "00000000", str "a.txt", 0, 0, 0, []⟩)],
      [⟨str "00000000", str "a.txt", 0, 0, 0, []⟩], []⟩ (by decide) (str "a.txt")⟩

/-- Claim C4 (code bug): a baseline FILE line with the correct field count
for the profile but a non-integer size field makes `int(expected_size)`
raise an uncaught ValueError, so `verify_integrity` aborts instead of
containing the fault: the model returns `none` (uncaught exception) on
`FILE  deadbeef  a.txt  abc` under the SizeOnly profile, over a tree it
never even gets to scan. -/
theorem claim4_nonint_field_crashes :
    verify_integrity true false false []
      (str "FILE  deadbeef  a.txt  abc" ++ ['\n']) = none := by decide

/-- Claim C6 (counterexample): a symlink whose target is a regular file is
returned by `get_all_files` (pathlib's `is_file()` follows symlinks), and a
symlink to a directory is returned by `get_all_dirs`, contradicting the
claim that symlinks are excluded from both sets. -/
theorem claim6_counterexample :
    get_all_files [(str "link", Entry.symlinkFile [] 0 0 [] true)] = [str "link"] ∧
    get_all_dirs [(str "dlink", Entry.symlinkDir 0 0 [] true)] = [str "dlink"] := by decide

/-- Claim C6 (amended): an entry is returned in the file set iff it is a
regular file or a symlink resolving to a regular file, and in the directory
set iff it is a directory or a symlink resolving to a directory; broken
symlinks and special files are excluded from both sets. -/
theorem claim6_enumeration (tree : Tree) (p : Str) :
    (p ∈ get_all_files tree ↔ ∃ e, (p, e) ∈ tree ∧ entryIsFile e = true) ∧
    (p ∈ get_all_dirs tree ↔ ∃ e, (p, e) ∈ tree ∧ entryIsDir e = true) :=
  ⟨mem_get_all_files, mem_get_all_dirs⟩

/-- Claim C7 (confirmed): folding any partition of the content through the
running `zlib.crc32` accumulator gives the same result as a single pass, and
`crc32_of_file` (which reads in 1 MiB chunks) equals the single-pass
checksum: the checksum is a pure function of byte content, independent of
chunk size. -/
theorem claim7_chunk_invariance (content : List Nat) (chunks : List (List Nat))
    (h : chunks.flatten = content) :
    chunks.foldl (fun crc data => zlibCrc32 data crc) 0 = zlibCrc32 content 0 ∧
    crc32_of_file content = hex8 (zlibCrc32 content 0 &&& 0xFFFFFFFF) := by
  constructor
  · rw [foldl_zlibCrc32_flatten, h]
  · rw [crc32_of_file, crc32Accum_eq]

/-- Witness for claim C7 at a concrete content split into two chunks. -/
theorem claim7_witness :
    ([[1], [2, 3]] : List (List Nat)).flatten = [1, 2, 3] ∧
    (([[1], [2, 3]] : List (List Nat)).foldl (fun crc data => zlibCrc32 data crc) 0 =
        zlibCrc32 [1, 2, 3] 0 ∧
      crc32_of_file [1, 2, 3] = hex8 (zlibCrc32 [1, 2, 3] 0 &&& 0xFFFFFFFF)) :=
  ⟨rfl, claim7_chunk_invariance [1, 2, 3] [[1], [2, 3]] rfl⟩

/-- Claim C8 (confirmed): the checksum of empty content is `"00000000"` and
its recorded size is 0; verifying the unchanged one-file tree yields a fully
empty report; and for every content the returned checksum is an 8-character
lowercase-hex rendering whose value is exactly the 32-bit accumulator. -/
theorem claim8_empty_file_checksum :
    crc32_of_file [] = str "00000000" ∧
    (process_file [(str "empty.dat", Entry.file [] 1000 1000 (str "-rw-r--r--") true)]
        (str "empty.dat")).map (fun r => (r.hash, r.size)) =
      some (str "00000000", 0) ∧
    verify_integrity false false false
        [(str "empty.dat", Entry.file [] 1000 1000 (str "-rw-r--r--") true)]
        (generate_baseline false
          [(str "empty.dat", Entry.file [] 1000 1000 (str "-rw-r--r--") true)]) =
      some ⟨[], [], [], [], [], [], [], [], [], [], [], [], []⟩ ∧
    ∀ content : List Nat, (crc32_of_file content).length = 8 ∧
      (crc32_of_file content).all isHexLower = true ∧
      hexVal (crc32_of_file content) = crc32Accum content := by
  refine ⟨by decide, by decide, by decide, fun content => ⟨rfl, ?_, ?_⟩⟩
  · rw [List.all_eq_true]
    intro c hc
    exact (hex8_chars _ c hc).1
  · exact hexVal_hex8 _ (by rw [crc32Accum]; exact lt_of_le_of_lt Nat.and_le_right (by norm_num))

/-- Claim C9 (confirmed): for every baseline file record recomputed without
read error, IdMapFlag is reported for its path iff the policy flag is on,
the profile is Rich (not windows), and the current uid or gid is 65534;
RootFlag iff the flag is on, the profile is Rich, and the current uid or gid
is 0 — computed from the freshly observed values, and never produced under
the SizeOnly profile. -/
theorem claim9_policy_flags (win idm rt : Bool) (tree : Tree) (log : Str) (p : Parsed)
    (hp : parseAll win (pyReadLines log) initParsed = some p)
    (rec : BFile) (r : PResult) (hrec : rec ∈ p.toCheck)
    (hr : process_file tree rec.rel = some r) :
    ∃ rep, verify_integrity win idm rt tree log = some rep ∧
      (rec.rel ∈ rep.fileIdmap ↔
        idm = true ∧ win = false ∧ (r.uid = 65534 ∨ r.gid = 65534)) ∧
      (rec.rel ∈ rep.fileRoot ↔
        rt = true ∧ win = false ∧ (r.uid = 0 ∨ r.gid = 0)) := by
  refine ⟨_, verify_integrity_eq win idm rt tree log p hp, ?_, ?_⟩
  · cases win with
    | true =>
        constructor
        · intro hm
          exact absurd hm (List.not_mem_nil _)
        · rintro ⟨_, hw, _⟩
          exact Bool.noConfusion hw
    | false =>
        constructor
        · intro hm
          obtain ⟨e, he, hfeq⟩ := List.mem_filterMap.mp hm
          obtain ⟨hrel, r2, hr2, hc⟩ := bind_if_eq_some hfeq
          rw [hrel, hr] at hr2
          injection hr2 with hr2
          subst hr2
          simp only [Bool.and_eq_true, Bool.or_eq_true, decide_eq_true_eq] at hc
          exact ⟨hc.1, rfl, hc.2⟩
        · rintro ⟨hidm, _, hor⟩
          refine List.mem_filterMap.mpr ⟨rec, hrec, ?_⟩
          rw [hr, Option.some_bind]
          rw [if_pos ?_]
          subst hidm
          simp [hor]
  · cases win with
    | true =>
        constructor
        · intro hm
          exact absurd hm (List.not_mem_nil _)
        · rintro ⟨_, hw, _⟩
          exact Bool.noConfusion hw
    | false =>
        constructor
        · intro hm
          obtain ⟨e, he, hfeq⟩ := List.mem_filterMap.mp hm
          obtain ⟨hrel, r2, hr2, hc⟩ := bind_if_eq_some hfeq
          rw [hrel, hr] at hr2
          injection hr2 with hr2
          subst hr2
          simp only [Bool.and_eq_true, Bool.or_eq_true, decide_eq_true_eq] at hc
          exact ⟨hc.1, rfl, hc.2⟩
        · rintro ⟨hrt, _, hor⟩
          refine List.mem_filterMap.mpr ⟨rec, hrec, ?_⟩
          rw [hr, Option.some_bind]
          rw [if_pos ?_]
          subst hrt
          simp [hor]

/-- Witness for claim C9 at a concrete rich-profile baseline whose one file
is currently owned by the anonymous-mapping uid 65534 and group 0. -/
theorem claim9_witness :
    (parseAll false (pyReadLines (str "FILE  00000000  f  0  65534  0  -rw-" ++ ['\n']))
        initParsed =
      some ⟨[], [(str "f", ⟨str "00000000", str "f", 0, 65534, 0, str "-rw-"⟩)],
        [⟨str "00000000", str "f", 0, 65534, 0, str "-rw-"⟩], []⟩) ∧
    ((⟨str "00000000", str "f", 0, 65534, 0, str "-rw-"⟩ : BFile) ∈
      (⟨[], [(str "f", ⟨str "00000000", str "f", 0, 65534, 0, str "-rw-"⟩)],
        [⟨str "00000000", str "f", 0, 65534, 0, str "-rw-"⟩], []⟩ : Parsed).toCheck) ∧
    (process_file [(str "f", Entry.file [] 65534 0 (str "-rw-") true)]
        (BFile.rel ⟨str "00000000", str "f", 0, 65534, 0, str "-rw-"⟩) =
      some ⟨str "00000000", 0, 65534, 0, str "-rw-"⟩) ∧
    (∃ rep, verify_integrity false true true
        [(str "f", Entry.file [] 65534 0 (str "-rw-") true)]
        (str "FILE  00000000  f  0  65534  0  -rw-" ++ ['\n']) = some rep ∧
      (BFile.rel ⟨str "00000000", str "f", 0, 65534, 0, str "-rw-"⟩ ∈ rep.fileIdmap ↔
        true = true ∧ false = false ∧
        (PResult.uid ⟨str "00000000", 0, 65534, 0, str "-rw-"⟩ = 65534 ∨
          PResult.gid ⟨str "00000000", 0, 65534, 0, str "-rw-"⟩ = 65534)) ∧
      (BFile.rel ⟨str "00000000", str "f", 0, 65534, 0, str "-rw-"⟩ ∈ rep.fileRoot ↔
        true = true ∧ false = false ∧
        (PResult.uid ⟨str "00000000", 0, 65534, 0, str "-rw-"⟩ = 0 ∨
          PResult.gid ⟨str "00000000", 0, 65534, 0, str "-rw-"⟩ = 0))) :=
  ⟨by decide, by decide, by decide,
    claim9_policy_flags false true true
      [(str "f", Entry.file [] 65534 0 (str "-rw-") true)]
      (str "FILE  00000000  f  0  65534  0  -rw-" ++ ['\n'])
      ⟨[], [(str "f", ⟨str "00000000", str "f", 0, 65534, 0, str "-rw-"⟩)],
        [⟨str "00000000", str "f", 0, 65534, 0, str "-rw-"⟩], []⟩ (by decide)
      ⟨str "00000000", str "f", 0, 65534, 0, str "-rw-"⟩
      ⟨str "00000000", 0, 65534, 0, str "-rw-"⟩ (by decide) (by decide)⟩

/-- Claim C2 (counterexample): a baselined file removed from the tree lands
in FileReadError as well as in MissingFile — verify recomputes every
baseline record, and the recompute of the vanished path raises, which the
per-task handler records as a read error.  The claim asserts the path
appears in MissingFile and nowhere else, in particular not in
FileReadError. -/
theorem claim2_counterexample :
    Option.map (fun rep => (rep.fileMissing, rep.fileError))
      (verify_integrity true false false []
        (str "FILE  00000000  a.txt  0" ++ ['\n'])) =
    some ([str "a.txt"], [str "a.txt"]) := by decide

/-- Claim C2 (amended): a baselined file whose path is absent from the tree
is classified in MissingFile and in FileReadError and in no other category;
a file present in the tree but absent from the baseline is classified in
ExtraFile and in no other category. -/
theorem claim2_removed_added (win idm rt : Bool) (tree : Tree) (log : Str) (p : Parsed)
    (rel : Str) (hp : parseAll win (pyReadLines log) initParsed = some p) :
    ((rel ∈ p.bFiles.map (fun e => e.1) ∧ rel ∉ p.bDirs ∧ lookupEntry tree rel = none) →
      ∃ rep, verify_integrity win idm rt tree log = some rep ∧
        rel ∈ rep.fileMissing ∧ rel ∈ rep.fileError ∧
        rel ∉ rep.fileHash ∧ rel ∉ rep.fileSize ∧ rel ∉ rep.fileUid ∧
        rel ∉ rep.fileGid ∧ rel ∉ rep.fileMode ∧ rel ∉ rep.fileIdmap ∧
        rel ∉ rep.fileRoot ∧ rel ∉ rep.fileExtra ∧ rel ∉ rep.dirMissing ∧
        rel ∉ rep.dirExtra ∧ rel ∉ rep.dirMetaErr) ∧
    ((rel ∉ p.bFiles.map (fun e => e.1) ∧ rel ∉ p.bDirs ∧ rel ∈ get_all_files tree ∧
        rel ∉ get_all_dirs tree) →
      ∃ rep, verify_integrity win idm rt tree log = some rep ∧
        rel ∈ rep.fileExtra ∧ rel ∉ rep.fileMissing ∧ rel ∉ rep.fileError ∧
        rel ∉ rep.fileHash ∧ rel ∉ rep.fileSize ∧ rel ∉ rep.fileUid ∧
        rel ∉ rep.fileGid ∧ rel ∉ rep.fileMode ∧ rel ∉ rep.fileIdmap ∧
        rel ∉ rep.fileRoot ∧ rel ∉ rep.dirMissing ∧ rel ∉ rep.dirExtra ∧
        rel ∉ rep.dirMetaErr) := by
  have hkeys := keys_toCheck_iff hp
  constructor
  · rintro ⟨hb, hnd, habs⟩
    have hproc : process_file tree rel = none := process_file_none habs
    refine ⟨_, verify_integrity_eq win idm rt tree log p hp,
      ?_, ?_, ?_, ?_, ?_, ?_, ?_, ?_, ?_, ?_, ?_, ?_, ?_⟩
    · refine List.mem_filter.mpr ⟨hb, ?_⟩
      cases hc : (get_all_files tree).contains rel with
      | false => rfl
      | true => exact absurd habs (lookup_ne_none_of_mem_files (contains_iff_mem.mp hc))
    · obtain ⟨rec, hrec, hrel⟩ := (hkeys rel).mp hb
      refine List.mem_filterMap.mpr ⟨rec, hrec, ?_⟩
      rw [hrel, hproc]
      rfl
    · exact not_mem_compare_category hproc _
    · exact not_mem_compare_category hproc _
    · cases win with
      | true => exact List.not_mem_nil rel
      | false => exact not_mem_compare_category hproc _
    · cases win with
      | true => exact List.not_mem_nil rel
      | false => exact not_mem_compare_category hproc _
    · cases win with
      | true => exact List.not_mem_nil rel
      | false => exact not_mem_compare_category hproc _
    · cases win with
      | true => exact List.not_mem_nil rel
      | false => exact not_mem_compare_category hproc _
    · cases win with
      | true => exact List.not_mem_nil rel
      | false => exact not_mem_compare_category hproc _
    · intro hm
      exact lookup_ne_none_of_mem_files (List.mem_filter.mp hm).1 habs
    · intro hm
      exact hnd (List.mem_filter.mp hm).1
    · intro hm
      exact lookup_ne_none_of_mem_dirs (List.mem_filter.mp hm).1 habs
    · intro hm
      exact hnd (List.mem_filter.mp hm).1
  · rintro ⟨hnb, hndir, hcur, hncurd⟩
    refine ⟨_, verify_integrity_eq win idm rt tree log p hp,
      ?_, ?_, ?_, ?_, ?_, ?_, ?_, ?_, ?_, ?_, ?_, ?_, ?_⟩
    · refine List.mem_filter.mpr ⟨hcur, ?_⟩
      cases hc : ((p.bFiles.map (fun e => e.1)).contains rel) with
      | false => rfl
      | true => exact absurd (contains_iff_mem.mp hc) hnb
    · intro hm
      exact hnb (List.mem_filter.mp hm).1
    · intro hm
      obtain ⟨e, he, hfeq⟩ := List.mem_filterMap.mp hm
      obtain ⟨hrel, _⟩ := fileError_out hfeq
      exact hnb ((hkeys rel).mpr ⟨e, he, hrel⟩)
    · exact not_mem_compare_category_of_not_key hkeys hnb _
    · exact not_mem_compare_category_of_not_key hkeys hnb _
    · cases win with
      | true => exact List.not_mem_nil rel
      | false => exact not_mem_compare_category_of_not_key hkeys hnb _
    · cases win with
      | true => exact List.not_mem_nil rel
      | false => exact not_mem_compare_category_of_not_key hkeys hnb _
    · cases win with
      | true => exact List.not_mem_nil rel
      | false => exact not_mem_compare_category_of_not_key hkeys hnb _
    · cases win with
      | true => exact List.not_mem_nil rel
      | false => exact not_mem_compare_category_of_not_key hkeys hnb _
    · cases win with
      | true => exact List.not_mem_nil rel
      | false => exact not_mem_compare_category_of_not_key hkeys hnb _
    · intro hm
      exact hndir (List.mem_filter.mp hm).1
    · intro hm
      exact hncurd (List.mem_filter.mp hm).1
    · intro hm
      exact hndir (List.mem_filter.mp hm).1

/-- Witness for claim C2 at a concrete baseline whose one file record has
been removed from the (empty) tree. -/
theorem claim2_witness :
    (parseAll true (pyReadLines (str "FILE  00000000  a.txt  0" ++ ['\n'])) initParsed =
      some ⟨[], [(str "a.txt", ⟨str "00000000", str "a.txt", 0, 0, 0, []⟩)],
        [⟨str "00000000", str "a.txt", 0, 0, 0, []⟩], []⟩) ∧
    (str "a.txt" ∈ ((⟨[], [(str "a.txt", ⟨str "00000000", str "a.txt", 0, 0, 0, []⟩)],
        [⟨str "00000000", str "a.txt", 0, 0, 0, []⟩], []⟩ : Parsed)).bFiles.map
          (fun e => e.1) ∧
      str "a.txt" ∉ ((⟨[], [(str "a.txt", ⟨str "00000000", str "a.txt", 0, 0, 0, []⟩)],
        [⟨str "00000000", str "a.txt", 0, 0, 0, []⟩], []⟩ : Parsed)).bDirs ∧
      lookupEntry [] (str "a.txt") = none) ∧
    (∃ rep, verify_integrity true false false []
        (str "FILE  00000000  a.txt  0" ++ ['\n']) = some rep ∧
      str "a.txt" ∈ rep.fileMissing ∧ str "a.txt" ∈ rep.fileError ∧
      str "a.txt" ∉ rep.fileHash ∧ str "a.txt" ∉ rep.fileSize ∧
      str "a.txt" ∉ rep.fileUid ∧ str "a.txt" ∉ rep.fileGid ∧
      str "a.txt" ∉ rep.fileMode ∧ str "a.txt" ∉ rep.fileIdmap ∧
      str "a.txt" ∉ rep.fileRoot ∧ str "a.txt" ∉ rep.fileExtra ∧
      str "a.txt" ∉ rep.dirMissing ∧ str "a.txt" ∉ rep.dirExtra ∧
      str "a.txt" ∉ rep.dirMetaErr) :=
  ⟨by decide, by decide,
    (claim2_removed_added true false false []
      (str "FILE  00000000  a.txt  0" ++ ['\n'])
      ⟨[], [(str "a.txt", ⟨str "00000000", str "a.txt", 0, 0, 0, []⟩)],
        [⟨str "00000000", str "a.txt", 0, 0, 0, []⟩], []⟩
      (str "a.txt") (by decide)).1 (by decide)⟩

/-- Claim C5 (confirmed): over a baseline consisting of lines valid for the
run's profile plus any number of lines with a wrong field count for their
record type (including file lines of the other profile's field count) or an
unrecognized leading token, the reader never aborts: it yields exactly the
state produced by the valid lines alone, and the skipped diagnostics are
exactly the invalid lines. -/
theorem claim5_malformed_lines_skipped (win : Bool) (lines : List Str)
    (h : ∀ l ∈ lines, lineValid win l = true ∨ lineInvalidKind win l = true) :
    ∃ q : Parsed,
      parseAll win (lines.filter (fun l => lineValid win l)) initParsed = some q ∧
      q.skipped = [] ∧
      parseAll win lines initParsed =
        some ⟨q.bDirs, q.bFiles, q.toCheck,
          lines.filter (fun l => lineInvalidKind win l)⟩ := by
  obtain ⟨q, h1, h2, h3⟩ := parseAll_filter_valid_aux win lines [] [] [] [] [] h
  exact ⟨q, h1, h2, by simpa using h3⟩

/-- Witness for claim C5 at a concrete baseline mixing two valid
windows-profile lines with a stray-token line and a short FILE line. -/
theorem claim5_witness :
    (∀ l ∈ [str "DIR  d  0  0  drwxr-xr-x", str "garbage line",
        str "FILE  00000000  a  1", str "FILE  toofew"],
      lineValid true l = true ∨ lineInvalidKind true l = true) ∧
    (∃ q : Parsed,
      parseAll true ([str "DIR  d  0  0  drwxr-xr-x", str "garbage line",
          str "FILE  00000000  a  1", str "FILE  toofew"].filter
            (fun l => lineValid true l)) initParsed = some q ∧
      q.skipped = [] ∧
      parseAll true [str "DIR  d  0  0  drwxr-xr-x", str "garbage line",
          str "FILE  00000000  a  1", str "FILE  toofew"] initParsed =
        some ⟨q.bDirs, q.bFiles, q.toCheck,
          [str "DIR  d  0  0  drwxr-xr-x", str "garbage line",
            str "FILE  00000000  a  1", str "FILE  toofew"].filter
              (fun l => lineInvalidKind true l)⟩) :=
  ⟨by decide, claim5_malformed_lines_skipped true
    [str "DIR  d  0  0  drwxr-xr-x", str "garbage line",
      str "FILE  00000000  a  1", str "FILE  toofew"] (by decide)⟩

/-- Claim C10 (counterexample): serializing a windows-profile file record
whose relative path is `"a "` (trailing space; no newline, no two adjacent
spaces anywhere) and parsing the line back yields the path `"a"`, not
`"a "` — the trailing space merges with the two-space field separator. -/
theorem claim10_counterexample :
    Option.map (fun p => p.toCheck.map (fun e => e.rel))
      (parseAll true (pyReadLines (fileLineW (hex8 0) (str "a ") 3 ++ ['\n']))
        initParsed) = some [str "a"] ∧ (str "a" : Str) ≠ str "a " := by decide

/-- Claim C10 (amended): serializing a processed file record as a baseline
FILE line and parsing it back under the same profile recovers exactly the
original checksum, relative path and size (and, under the Rich profile, the
uid, gid and mode string), provided the relative path contains no newline
and no two adjacent spaces and does not end with a space, and the mode
string contains no newline and no two adjacent spaces. -/
theorem claim10_roundtrip (win : Bool) (hv size u g : Nat) (rel mode : Str)
    (h1 : hasDoubleSp rel = false) (h2 : '\n' ∉ rel) (h3 : rel.getLast? ≠ some ' ')
    (h4 : hasDoubleSp mode = false) (h5 : '\n' ∉ mode) :
    ∃ p, parseAll win (pyReadLines
        ((if win then fileLineW (hex8 hv) rel size
          else fileLineL (hex8 hv) rel size u g mode) ++ ['\n'])) initParsed = some p ∧
      p.toCheck = [mkBFile win ⟨hex8 hv, size, u, g, mode⟩ rel] ∧
      p.bFiles = [(rel, mkBFile win ⟨hex8 hv, size, u, g, mode⟩ rel)] ∧
      p.bDirs = [] ∧ p.skipped = [] := by
  have hrel : goodPathB rel = true := by
    rw [goodPathB, h1, contains_eq_false_of_not_mem h2]
    simpa using h3
  have hmode : goodModeB mode = true := by
    rw [goodModeB, h4, contains_eq_false_of_not_mem h5]
    rfl
  have hht := hex8_token hv
  cases win with
  | true =>
      rw [if_pos rfl]
      have hnl : '\n' ∉ fileLineW (hex8 hv) rel size := noNl_fileLineW size hht.2.2 hrel
      have hlines : pyReadLines (fileLineW (hex8 hv) rel size ++ ['\n']) =
          [fileLineW (hex8 hv) rel size] := by
        have := pyReadLines_flatten [fileLineW (hex8 hv) rel size]
          (by intro l hl; rw [List.mem_singleton] at hl; subst hl; exact hnl)
        simpa using this
      rw [hlines, parseAll_cons_some true _ [] initParsed _
        (parseLine_fileLineW initParsed size ⟨hht.1, hht.2.1, hht.2.2⟩ hrel)]
      exact ⟨_, rfl, rfl, rfl, rfl, rfl⟩
  | false =>
      rw [if_neg (by simp)]
      have hnl : '\n' ∉ fileLineL (hex8 hv) rel size u g mode :=
        noNl_fileLineL size u g hht.2.2 hrel hmode
      have hlines : pyReadLines (fileLineL (hex8 hv) rel size u g mode ++ ['\n']) =
          [fileLineL (hex8 hv) rel size u g mode] := by
        have := pyReadLines_flatten [fileLineL (hex8 hv) rel size u g mode]
          (by intro l hl; rw [List.mem_singleton] at hl; subst hl; exact hnl)
        simpa using this
      rw [hlines, parseAll_cons_some false _ [] initParsed _
        (parseLine_fileLineL initParsed size u g ⟨hht.1, hht.2.1, hht.2.2⟩ hrel hmode)]
      exact ⟨_, rfl, rfl, rfl, rfl, rfl⟩

/-- Witness for claim C10 at a concrete rich-profile record. -/
theorem claim10_witness :
    (hasDoubleSp (str "a.txt") = false ∧ '\n' ∉ str "a.txt" ∧
      (str "a.txt").getLast? ≠ some ' ' ∧
      hasDoubleSp (str "-rw-r--r--") = false ∧ '\n' ∉ str "-rw-r--r--") ∧
    (∃ p, parseAll false (pyReadLines
        ((if false then fileLineW (hex8 0) (str "a.txt") 5
          else fileLineL (hex8 0) (str "a.txt") 5 1 2 (str "-rw-r--r--")) ++ ['\n']))
        initParsed = some p ∧
      p.toCheck = [mkBFile false ⟨hex8 0, 5, 1, 2, str "-rw-r--r--"⟩ (str "a.txt")] ∧
      p.bFiles = [(str "a.txt",
        mkBFile false ⟨hex8 0, 5, 1, 2, str "-rw-r--r--"⟩ (str "a.txt"))] ∧
      p.bDirs = [] ∧ p.skipped = []) :=
  ⟨⟨by decide, by decide, by decide, by decide, by decide⟩,
    claim10_roundtrip false 0 5 1 2 (str "a.txt") (str "-rw-r--r--")
      (by decide) (by decide) (by decide) (by decide) (by decide)⟩

/-- Claim C1 (counterexample): running a baseline over a tree with the
baseline file at its default in-tree location `<root>/.integrity_hash.log`
and then verifying the otherwise unchanged tree does not yield an empty
ExtraFile category: the baseline run creates the log file after enumerating
the tree, so the verify run's enumeration sees the log file itself as an
extra file.  Shown here for the empty tree: the verify run over the tree
now containing (only) the log file reports exactly the log file in
ExtraFile. -/
theorem claim1_counterexample :
    generate_baseline false ([] : Tree) = [] ∧
    Option.map Report.fileExtra
      (verify_integrity false false false [(HASH_LOG_NAME, Entry.file [] 0 0 [] true)]
        (generate_baseline false ([] : Tree))) = some [HASH_LOG_NAME] := by decide

/-- Claim C1 (amended): for every tree of per-entry-fault-free entries whose
paths and mode strings survive the baseline wire format (no newline, no two
adjacent spaces, paths not ending in a space), running a baseline and then
verifying the unchanged tree with the same profile — the baseline stored
outside the tree — yields empty MissingDir, ExtraDir, DirMetaError,
MissingFile, ExtraFile, FileReadError, HashMismatch, SizeMismatch,
UidMismatch, GidMismatch and ModeMismatch categories.  (At the default
in-tree baseline location the baseline file itself is reported in
ExtraFile; see the counterexample.) -/
theorem claim1_roundtrip (win idm rt : Bool) (tree : Tree) (hg : goodTree tree) :
    ∃ rep, verify_integrity win idm rt tree (generate_baseline win tree) = some rep ∧
      rep.dirMissing = [] ∧ rep.dirExtra = [] ∧ rep.dirMetaErr = [] ∧
      rep.fileMissing = [] ∧ rep.fileExtra = [] ∧ rep.fileError = [] ∧
      rep.fileHash = [] ∧ rep.fileSize = [] ∧ rep.fileUid = [] ∧
      rep.fileGid = [] ∧ rep.fileMode = [] :=
  roundtrip_clean win idm rt tree hg

/-- Witness for claim C1 at a concrete two-entry tree under the Rich
profile. -/
theorem claim1_witness :
    goodTree [(str "d", Entry.dir 0 0 (str "drwxr-xr-x") true),
      (str "d/a.txt", Entry.file [104, 105] 1000 1000 (str "-rw-r--r--") true)] ∧
    (∃ rep, verify_integrity false true true
        [(str "d", Entry.dir 0 0 (str "drwxr-xr-x") true),
          (str "d/a.txt", Entry.file [104, 105] 1000 1000 (str "-rw-r--r--") true)]
        (generate_baseline false
          [(str "d", Entry.dir 0 0 (str "drwxr-xr-x") true),
            (str "d/a.txt", Entry.file [104, 105] 1000 1000 (str "-rw-r--r--") true)]) =
        some rep ∧
      rep.dirMissing = [] ∧ rep.dirExtra = [] ∧ rep.dirMetaErr = [] ∧
      rep.fileMissing = [] ∧ rep.fileExtra = [] ∧ rep.fileError = [] ∧
      rep.fileHash = [] ∧ rep.fileSize = [] ∧ rep.fileUid = [] ∧
      rep.fileGid = [] ∧ rep.fileMode = []) :=
  ⟨by unfold goodTree; decide, claim1_roundtrip false true true
    [(str "d", Entry.dir 0 0 (str "drwxr-xr-x") true),
      (str "d/a.txt", Entry.file [104, 105] 1000 1000 (str "-rw-r--r--") true)]
    (by unfold goodTree; decide)⟩

end FileIntegrity
